import Mathlib

/-!
Verification development for the `autoclean` cleaning engine
(`src/autoclean/cleaner.py`).  The pandas dataframe is shallowly embedded:
a dataframe is a row count together with a list of named, dtype-tagged
columns; a cell is a null marker, a string, a rational number (modelling a
Python float) or an integer (modelling a timestamp).  Library calls
(`astype(str)`, `str.strip`, `str.lower`, `pd.to_datetime`,
`Series.median`, `Series.mode`, `DataFrame.duplicated`) are modelled by
executable Lean functions capturing their behaviour on the values the
pipeline can produce.
-/

/-- Whitespace test on characters, modelling Python `str.strip`'s default
character class (space, tab, newline, carriage return, vertical tab, form
feed), expressed through code points. -/
def isWS (c : Char) : Bool :=
  c.toNat == 32 || c.toNat == 9 || c.toNat == 10 || c.toNat == 13 ||
  c.toNat == 11 || c.toNat == 12

/-- Lower-casing of a single character, modelling Python `str.lower` on the
ASCII range: code points 65–90 are shifted by 32, everything else is kept. -/
def lowerChar (c : Char) : Char :=
  if 65 ≤ c.toNat ∧ c.toNat ≤ 90 then Char.ofNat (c.toNat + 32) else c

/-- Lower-casing of a character list. -/
def lowerL (cs : List Char) : List Char := cs.map lowerChar

/-- Lower-casing of a string (model of Python `str.lower`). -/
def lowerS (s : String) : String := String.mk (lowerL s.data)

/-- Stripping of leading and trailing whitespace from a character list
(model of Python `str.strip()`). -/
def stripL (cs : List Char) : List Char :=
  ((cs.dropWhile isWS).reverse.dropWhile isWS).reverse

/-- Stripping of leading and trailing whitespace from a string. -/
def stripS (s : String) : String := String.mk (stripL s.data)

/-- Decides whether `p` occurs at the head of `l`. -/
def startsWith : List Char → List Char → Bool
  | [], _ => true
  | _ :: _, [] => false
  | a :: p, b :: l => a == b && startsWith p l

/-- Decides whether `p` occurs as a contiguous sublist of `l` (model of
Python's `in` test on strings). -/
def containsSub (p : List Char) : List Char → Bool
  | [] => p.isEmpty
  | b :: t => startsWith p (b :: t) || containsSub p t

/-- Cell values of the embedded dataframe: the null sentinel (NaN / NaT /
NA), a text value, a numeric value (Python float modelled as a rational),
or a timestamp (modelled as an integer). -/
inductive Cell where
  | null : Cell
  | str : String → Cell
  | num : Rat → Cell
  | ts : Int → Cell
deriving DecidableEq, Repr

/-- Column dtypes distinguished by the pipeline: pandas `object`, numeric
dtypes, and `datetime64`. -/
inductive Dtype where
  | object : Dtype
  | numeric : Dtype
  | datetime : Dtype
deriving DecidableEq, Repr

/-- Null test on cells (model of `pd.isna` on a scalar). -/
def Cell.isNull : Cell → Bool
  | Cell.null => true
  | _ => false

/-- Columns: a name, a dtype and the cells, one per row. -/
structure Col where
  name : String
  dtype : Dtype
  cells : List Cell
deriving DecidableEq, Repr

/-- Dataframes: a row count and the list of columns. -/
structure DF where
  nrows : Nat
  cols : List Col
deriving DecidableEq, Repr

/-- Consistency of a cell with its column's dtype: numeric columns hold
numbers or null, datetime columns hold timestamps or null, object columns
hold anything.  This mirrors what pandas dtypes enforce. -/
def cellOkB : Dtype → Cell → Bool
  | Dtype.object, _ => true
  | Dtype.numeric, Cell.null => true
  | Dtype.numeric, Cell.num _ => true
  | Dtype.numeric, _ => false
  | Dtype.datetime, Cell.null => true
  | Dtype.datetime, Cell.ts _ => true
  | Dtype.datetime, _ => false

/-- Well-formed dataframes: every column has exactly `nrows` cells, cells
are consistent with their column's dtype, and column names are distinct
(pandas' column-label indexing assumes this). -/
def wellformed (df : DF) : Prop :=
  (∀ c ∈ df.cols, c.cells.length = df.nrows) ∧
  (∀ c ∈ df.cols, ∀ x ∈ c.cells, cellOkB c.dtype x = true) ∧
  (df.cols.map Col.name).Nodup

instance (df : DF) : Decidable (wellformed df) := by
  unfold wellformed; infer_instance

/-- Decimal rendering of a Python float: integers print with a trailing
".0", terminating decimal fractions print with the shortest expansion
(model of `str` on the float values the pipeline computes). -/
def pyFloatStr (q : Rat) : String :=
  if q.den = 1 then toString q.num ++ ".0"
  else
    match (List.range 31).find? (fun k => (10 ^ k) % q.den = 0) with
    | some k =>
        let sign := if q.num < 0 then "-" else ""
        let scaled := q.num.natAbs * (10 ^ k) / q.den
        let ip := scaled / 10 ^ k
        let fp := scaled % 10 ^ k
        let fs := Nat.repr fp
        let pad := String.mk (List.replicate (k - fs.length) '0')
        sign ++ Nat.repr ip ++ "." ++ pad ++ fs
    | none => toString q.num ++ "/" ++ toString q.den

/-- Stringification of a cell (model of Python `str(x)` as applied by
`astype(str)`): a float null stringifies to `"nan"`. -/
def pyStr : Cell → String
  | Cell.null => "nan"
  | Cell.str s => s
  | Cell.num q => pyFloatStr q
  | Cell.ts t => toString t

/-- Count of null cells in a list (model of `Series.isna().sum()`). -/
def countNulls (l : List Cell) : Nat := l.countP fun c => c.isNull

/-- Text-normalizer transform of one cell: `astype(str)` followed by
`.str.strip()` followed by the replacement of empty strings with NA
(`cleaner.py` lines 19–24).  Note that a null cell is stringified first,
so it becomes the text `"nan"`. -/
def normCell1 (c : Cell) : Cell :=
  let s := stripS (pyStr c)
  if s = "" then Cell.null else Cell.str s

/-- Stage 1 (Text Normalizer) on one column, returning the new column and
the recorded `new_nulls_from_empty_strings` delta (`cleaner.py` 19–27).
Only object-dtype columns are touched; the delta is recorded iff
non-zero. -/
def colStage1 (c : Col) : Col × Option Int :=
  if c.dtype = Dtype.object then
    let before : Int := countNulls c.cells
    let cells2 := c.cells.map normCell1
    let after : Int := countNulls cells2
    let delta : Int := after - before
    (⟨c.name, c.dtype, cells2⟩, if delta = 0 then none else some delta)
  else (c, none)

/-- Digit test through code points. -/
def isDigitN (c : Char) : Bool := 48 ≤ c.toNat && c.toNat ≤ 57

/-- Numeric value of a digit character. -/
def digitVal (c : Char) : Nat := c.toNat - 48

/-- Parse of an ISO `YYYY-MM-DD` string into an integer timestamp code
(model of the string grammar accepted by `pd.to_datetime`; the encoding
`y*10000 + m*100 + d` is monotone in the calendar order). -/
def parseIsoDate (cs : List Char) : Option Int :=
  if cs.length = 10 then
    let g : Nat → Char := fun i => cs.getD i ' '
    if isDigitN (g 0) && isDigitN (g 1) && isDigitN (g 2) && isDigitN (g 3) &&
       (g 4).toNat == 45 && isDigitN (g 5) && isDigitN (g 6) &&
       (g 7).toNat == 45 && isDigitN (g 8) && isDigitN (g 9) then
      let y := digitVal (g 0) * 1000 + digitVal (g 1) * 100 +
               digitVal (g 2) * 10 + digitVal (g 3)
      let m := digitVal (g 5) * 10 + digitVal (g 6)
      let d := digitVal (g 8) * 10 + digitVal (g 9)
      if 1 ≤ m && m ≤ 12 && 1 ≤ d && d ≤ 31 then
        some ((y * 10000 + m * 100 + d : Nat) : Int)
      else none
    else none
  else none

/-- Per-cell timestamp coercion (model of `pd.to_datetime(·, errors="coerce",
utc=True)` followed by `.dt.tz_convert(None)`): nulls fail, timestamps pass
through, numbers are interpreted as epoch offsets, strings go through the
date grammar. -/
def parseTS : Cell → Option Int
  | Cell.null => none
  | Cell.ts t => some t
  | Cell.num q => some q.floor
  | Cell.str s => parseIsoDate s.data

/-- Name heuristic of the Temporal Parser: the lower-cased column name
contains `"date"`, `"_at"` or `"time"` (`cleaner.py` 31–33). -/
def nameHint (n : String) : Bool :=
  containsSub "date".data (lowerL n.data) ||
  containsSub "_at".data (lowerL n.data) ||
  containsSub "time".data (lowerL n.data)

/-- Stage 2 (Temporal Parser) on one column, returning the new column and
the recorded `parsed_to_datetime` count (`cleaner.py` 30–37): if the name
matches and at least one value parses, the column is replaced by the
parsed timestamps (failures becoming null) and becomes datetime dtype. -/
def colStage2 (c : Col) : Col × Option Nat :=
  if nameHint c.name then
    let parsed := c.cells.map parseTS
    let converted := parsed.countP Option.isSome
    if 0 < converted then
      (⟨c.name, Dtype.datetime,
        parsed.map fun o => match o with | some t => Cell.ts t | none => Cell.null⟩,
       some converted)
    else (c, none)
  else (c, none)

/-- ASCII letter test through code points (regex class `[A-Za-z]`). -/
def isAlphaN (c : Char) : Bool :=
  (65 ≤ c.toNat && c.toNat ≤ 90) || (97 ≤ c.toNat && c.toNat ≤ 122)

/-- Character class of the regex local part `[A-Za-z0-9._%+-]`. -/
def isLocalChar (c : Char) : Bool :=
  isAlphaN c || isDigitN c || c.toNat == 46 || c.toNat == 95 ||
  c.toNat == 37 || c.toNat == 43 || c.toNat == 45

/-- Character class of the regex domain part `[A-Za-z0-9.-]`. -/
def isDomChar (c : Char) : Bool :=
  isAlphaN c || isDigitN c || c.toNat == 46 || c.toNat == 45

/-- Decides whether the part after `@` matches `[A-Za-z0-9.-]+\.[A-Za-z]{2,}`:
some split point `i` carries a dot, with a non-empty domain run before it
and a final label of at least two letters after it. -/
def emailDomOk (r : List Char) : Bool :=
  (List.range r.length).any fun i =>
    1 ≤ i && (r.getD i ' ').toNat == 46 && (r.take i).all isDomChar &&
    2 ≤ r.length - (i + 1) && (r.drop (i + 1)).all isAlphaN

/-- Full-string match of the email regex
`^[A-Za-z0-9._%+-]+@[A-Za-z0-9.-]+\.[A-Za-z]{2,}$` on a character list:
a non-empty local part before the first `@`, then a matching domain. -/
def emailMatchL (cs : List Char) : Bool :=
  let L := cs.takeWhile fun c => c.toNat != 64
  match cs.dropWhile (fun c => c.toNat != 64) with
  | [] => false
  | _ :: rest => !L.isEmpty && L.all isLocalChar && emailDomOk rest

/-- Embedding of `EMAIL_RE.match` (`cleaner.py` line 6) as a boolean test. -/
def EMAIL_RE (s : String) : Bool := emailMatchL s.data

/-- Validity test the Email Normalizer applies to one cell:
`bool(EMAIL_RE.match(str(x))) if pd.notna(x) else False`. -/
def emailValid (x : Cell) : Bool := !x.isNull && EMAIL_RE (pyStr x)

/-- Lower-casing of one cell by `Series.str.lower()`: strings are lowered,
null stays null, and non-string values become null (pandas `.str` methods
yield NaN on non-text). -/
def lowerCell : Cell → Cell
  | Cell.str s => Cell.str (lowerS s)
  | _ => Cell.null

/-- Stage 3 (Email Normalizer) on one column (`cleaner.py` 40–46): for an
object column whose lower-cased name contains `"email"`, count valid
emails, lower-case every value, count again, and always record both
counts. -/
def colStage3 (c : Col) : Col × Option (Nat × Nat) :=
  if c.dtype = Dtype.object ∧ containsSub "email".data (lowerL c.name.data) = true then
    let before := c.cells.countP emailValid
    let cells2 := c.cells.map lowerCell
    let after := cells2.countP emailValid
    (⟨c.name, c.dtype, cells2⟩, some (before, after))
  else (c, none)

/-- Normalization applied to one cell for duplicate comparison
(`cleaner.py` 50–52): object columns are lowered then stripped (null stays
null, non-text becomes null), other columns compare as-is. -/
def dedupNorm (d : Dtype) (x : Cell) : Cell :=
  match d, x with
  | Dtype.object, Cell.str s => Cell.str (stripS (lowerS s))
  | Dtype.object, _ => Cell.null
  | _, x => x

/-- Row extraction: the `i`-th row of the dataframe after applying `f` to
each cell with its column's dtype. -/
def rowsWith (f : Dtype → Cell → Cell) (df : DF) : List (List Cell) :=
  (List.range df.nrows).map fun i =>
    df.cols.map fun c => f c.dtype (c.cells.getD i Cell.null)

/-- Comparison keys of all rows, in order (the rows of the normalized copy
`norm` in `cleaner.py` 50–52). -/
def dfKeys (df : DF) : List (List Cell) := rowsWith dedupNorm df

/-- Plain rows of the dataframe, in order. -/
def dfRows (df : DF) : List (List Cell) := rowsWith (fun _ x => x) df

/-- Duplicate mask (model of `DataFrame.duplicated()` with `keep="first"`):
a row is marked iff its key already occurred. -/
def dupMask : List (List Cell) → List (List Cell) → List Bool
  | _, [] => []
  | seen, k :: ks => decide (k ∈ seen) :: dupMask (k :: seen) ks

/-- Selection of the entries of `l` at the positions the mask leaves false
(model of boolean-mask row selection `df.loc[~mask]`). -/
def applyMask {α : Type} : List Bool → List α → List α
  | b :: m, x :: xs => if b then applyMask m xs else x :: applyMask m xs
  | _, _ => []

/-- Number of surviving (unmasked) positions. -/
def countFalse (m : List Bool) : Nat := m.countP fun b => !b

/-- Stage 4 (Deduplicator) on the whole dataframe (`cleaner.py` 49–55):
build the normalized keys, mask later duplicates, keep the unmasked rows
of every column.  Returns the new dataframe and the number of dropped
rows. -/
def dedupDF (df : DF) : DF × Nat :=
  let mask := dupMask [] (dfKeys df)
  let cols2 := df.cols.map fun c => ⟨c.name, c.dtype, applyMask mask c.cells⟩
  let kept := countFalse mask
  (⟨kept, cols2⟩, df.nrows - kept)

/-- Numeric values of a column's cells. -/
def ratsOf (l : List Cell) : List Rat :=
  l.filterMap fun x => match x with | Cell.num q => some q | _ => none

/-- Median of a list of rationals (model of `Series.median()`): middle
element of the sorted list, or the mean of the two middle elements. -/
def medianRat (l : List Rat) : Rat :=
  let s := List.insertionSort (· ≤ ·) l
  if s.length % 2 = 1 then s.getD (s.length / 2) 0
  else (s.getD (s.length / 2 - 1) 0 + s.getD (s.length / 2) 0) / 2

/-- Rank used to order cells of distinct kinds (tie-break order of the
mode computation; within the pipeline only same-kind values are
compared). -/
def cellRank : Cell → Nat
  | Cell.null => 0
  | Cell.num _ => 1
  | Cell.str _ => 2
  | Cell.ts _ => 3

/-- Order on cells used by the mode tie-break (`Series.mode` returns its
candidates sorted ascending; `iloc[0]` takes the least). -/
def cellLE (a b : Cell) : Bool :=
  match a, b with
  | Cell.num p, Cell.num q => decide (p ≤ q)
  | Cell.str s, Cell.str t => decide (s ≤ t)
  | Cell.ts s, Cell.ts t => decide (s ≤ t)
  | a, b => decide (cellRank a ≤ cellRank b)

/-- Mode of a cell list (model of `Series.mode(dropna=True).iloc[0]`):
the most frequent non-null value, ties resolved to the least in the
`cellLE` order; `none` when no non-null value exists. -/
def modeCells (l : List Cell) : Option Cell :=
  let nn := l.filter fun x => !x.isNull
  nn.foldl (fun acc x =>
    match acc with
    | none => some x
    | some b =>
        if nn.count x > nn.count b then some x
        else if nn.count x = nn.count b ∧ cellLE x b = true then some x
        else some b) none

/-- Replacement of every null cell by `v` (model of
`df.loc[df[col].isna(), col] = val`; if `v` is itself null the nulls
remain). -/
def fillNulls (v : Cell) (l : List Cell) : List Cell :=
  l.map fun x => if x.isNull then v else x

/-- Stage 5 (Imputer) on one column (`cleaner.py` 59–83), returning the
new column, the recorded `imputed_missing` count and the recorded
`imputation_strategy` string.  Columns without nulls are skipped; numeric
columns are filled with the median (0.0 when entirely null), datetime
columns with the mode (NaT when entirely null, in which case the nulls
persist), and all other columns with the mode (falling back to the string
`"Unknown"`). -/
def colImpute (c : Col) : Col × Option Nat × Option String :=
  let missing := countNulls c.cells
  if missing = 0 then (c, none, none)
  else if c.dtype = Dtype.numeric then
    let val : Rat :=
      if c.cells.any (fun x => !x.isNull) then medianRat (ratsOf c.cells) else 0
    (⟨c.name, c.dtype, fillNulls (Cell.num val) c.cells⟩,
     some missing, some ("median=" ++ pyFloatStr val))
  else if c.dtype = Dtype.datetime then
    let val := (modeCells c.cells).getD Cell.null
    (⟨c.name, c.dtype, fillNulls val c.cells⟩,
     some missing, some "mode (datetime)")
  else
    let val := (modeCells c.cells).getD (Cell.str "Unknown")
    (⟨c.name, c.dtype, fillNulls val c.cells⟩,
     some missing, some ("mode=\x27" ++ pyStr val ++ "\x27"))

/-- Combined effect of stages 1–3 on a single column; the three stages are
column-wise independent, so running them column by column is
observationally equal to running each over the whole frame in turn.
Returns the transformed column together with the three audit
contributions. -/
def colPhase123 (c : Col) : Col × Option Int × Option Nat × Option (Nat × Nat) :=
  let r1 := colStage1 c
  let r2 := colStage2 r1.fst
  let r3 := colStage3 r2.fst
  (r3.fst, r1.snd, r2.snd, r3.snd)

/-- Per-column slice of the audit's `column_changes` mapping; `none` means
the key is absent. -/
structure ColChanges where
  new_nulls_from_empty_strings : Option Int
  parsed_to_datetime : Option Nat
  emails_valid_before : Option Nat
  emails_valid_after : Option Nat
  imputed_missing : Option Nat
  imputation_strategy : Option String
deriving DecidableEq, Repr

/-- Entry with every change key absent. -/
def emptyChanges : ColChanges := ⟨none, none, none, none, none, none⟩

/-- Assembly of one `column_changes` entry from the stage contributions. -/
def mkChanges (p : Option Int × Option Nat × Option (Nat × Nat))
    (i : Option Nat × Option String) : ColChanges :=
  ⟨p.1, p.2.1, (p.2.2).map Prod.fst, (p.2.2).map Prod.snd, i.1, i.2⟩

/-- Audit record returned by `clean_dataframe` (`cleaner.py` 9–16, 85). -/
structure Audit where
  rows_before : Nat
  rows_after : Nat
  duplicates_removed : Nat
  columns : List String
  column_changes : List ColChanges
  issues : List String
deriving DecidableEq, Repr

/-- Embedding of `clean_dataframe` (`cleaner.py` 8–86): stages 1–3 per
column, then deduplication, then imputation, assembling the audit
record. -/
def clean_dataframe (df : DF) : DF × Audit :=
  let phase := df.cols.map colPhase123
  let dfA : DF := ⟨df.nrows, phase.map Prod.fst⟩
  let dd := dedupDF dfA
  let dfB := dd.fst
  let removed := dd.snd
  let imp := dfB.cols.map colImpute
  let dfC : DF := ⟨dfB.nrows, imp.map Prod.fst⟩
  (dfC,
   ⟨df.nrows, dfC.nrows,
    if 0 < removed then removed else 0,
    df.cols.map Col.name,
    List.zipWith (fun p i => mkChanges p.snd i.snd) phase imp,
    []⟩)

/-- Comparison key of a single row given the column dtype list (textual
components lower-cased and stripped, others as-is). -/
def rowKeyOf (ds : List Dtype) (r : List Cell) : List Cell :=
  List.zipWith dedupNorm ds r

/-- Modelled from the spec (§4.4): keep the first occurrence, in original
row order, of each group of rows with equal comparison keys, dropping
subsequent occurrences.  Written directly from the spec's words as an
independent characterization, to be compared with the mask-based
`dedupDF`. -/
def firstOccFilter (key : List Cell → List Cell) :
    List (List Cell) → List (List Cell) → List (List Cell)
  | _, [] => []
  | seen, r :: rs =>
      if key r ∈ seen then firstOccFilter key seen rs
      else r :: firstOccFilter key (key r :: seen) rs

/-- Test that a cell is text or null (what an object column holds after
text normalization). -/
def strOrNull : Cell → Bool
  | Cell.null => true
  | Cell.str _ => true
  | _ => false

/-- Name heuristic of the Email Normalizer on a column. -/
def emailNameB (c : Col) : Bool := containsSub "email".data (lowerL c.name.data)

/-- Audit predicate: no column recorded any imputed values. -/
def noImputation (a : Audit) : Prop :=
  ∀ e ∈ a.column_changes, e.imputed_missing = none

instance (a : Audit) : Decidable (noImputation a) := by
  unfold noImputation
  infer_instance

/-- Invariant satisfied by every column of a cleaned dataframe whose first
run imputed nothing: object columns hold non-empty stripped strings
(lower-cased when the email heuristic applies) none of which parses as a
timestamp when the temporal heuristic applies; numeric columns matching
the temporal heuristic are empty; datetime columns hold only timestamps. -/
def cleanCol (c : Col) : Prop :=
  (c.dtype = Dtype.object →
    ∀ x ∈ c.cells, ∃ s, x = Cell.str s ∧ stripS s = s ∧ s ≠ "" ∧
      (emailNameB c = true → lowerS s = s)) ∧
  (c.dtype = Dtype.object → nameHint c.name = true →
    ∀ x ∈ c.cells, parseTS x = none) ∧
  (c.dtype = Dtype.numeric → nameHint c.name = true → c.cells = []) ∧
  (c.dtype = Dtype.datetime → ∀ x ∈ c.cells, ∃ t, x = Cell.ts t)

/-- Columns with their first row removed (used to recurse over rows in a
column-major frame). -/
def tailCols (cols : List Col) : List Col :=
  cols.map fun c => ⟨c.name, c.dtype, c.cells.tail⟩

/-! ### Character-level lemmas -/

theorem charOfNat_toNat {n : Nat} (h : n.isValidChar) : (Char.ofNat n).toNat = n := by
  rw [Char.ofNat, dif_pos h]
  rfl

theorem lowerChar_toNat (c : Char) :
    (lowerChar c).toNat =
      if 65 ≤ c.toNat ∧ c.toNat ≤ 90 then c.toNat + 32 else c.toNat := by
  unfold lowerChar
  split
  · rename_i h
    exact charOfNat_toNat (Or.inl (by omega))
  · rfl

theorem lowerChar_eq_self {c : Char} (h : ¬(65 ≤ c.toNat ∧ c.toNat ≤ 90)) :
    lowerChar c = c := by
  unfold lowerChar
  exact if_neg h

theorem isWS_lowerChar (c : Char) : isWS (lowerChar c) = isWS c := by
  have h := lowerChar_toNat c
  rw [Bool.eq_iff_iff]
  by_cases hu : 65 ≤ c.toNat ∧ c.toNat ≤ 90
  · rw [if_pos hu] at h
    simp only [isWS, Bool.or_eq_true, beq_iff_eq, h]
    omega
  · rw [if_neg hu] at h
    simp only [isWS, Bool.or_eq_true, beq_iff_eq, h]

theorem isDigitN_lowerChar (c : Char) : isDigitN (lowerChar c) = isDigitN c := by
  have h := lowerChar_toNat c
  rw [Bool.eq_iff_iff]
  by_cases hu : 65 ≤ c.toNat ∧ c.toNat ≤ 90
  · rw [if_pos hu] at h
    simp only [isDigitN, Bool.and_eq_true, decide_eq_true_eq, h]
    omega
  · rw [if_neg hu] at h
    simp only [isDigitN, Bool.and_eq_true, decide_eq_true_eq, h]

theorem isAlphaN_lowerChar (c : Char) : isAlphaN (lowerChar c) = isAlphaN c := by
  have h := lowerChar_toNat c
  rw [Bool.eq_iff_iff]
  by_cases hu : 65 ≤ c.toNat ∧ c.toNat ≤ 90
  · rw [if_pos hu] at h
    simp only [isAlphaN, Bool.or_eq_true, Bool.and_eq_true, decide_eq_true_eq, h]
    omega
  · rw [if_neg hu] at h
    simp only [isAlphaN, Bool.or_eq_true, Bool.and_eq_true, decide_eq_true_eq, h]

theorem isLocalChar_lowerChar (c : Char) : isLocalChar (lowerChar c) = isLocalChar c := by
  have h := lowerChar_toNat c
  rw [Bool.eq_iff_iff]
  by_cases hu : 65 ≤ c.toNat ∧ c.toNat ≤ 90
  · rw [if_pos hu] at h
    simp only [isLocalChar, isAlphaN, isDigitN, Bool.or_eq_true, Bool.and_eq_true,
      decide_eq_true_eq, beq_iff_eq, h]
    omega
  · rw [if_neg hu] at h
    simp only [isLocalChar, isAlphaN, isDigitN, Bool.or_eq_true, Bool.and_eq_true,
      decide_eq_true_eq, beq_iff_eq, h]

theorem isDomChar_lowerChar (c : Char) : isDomChar (lowerChar c) = isDomChar c := by
  have h := lowerChar_toNat c
  rw [Bool.eq_iff_iff]
  by_cases hu : 65 ≤ c.toNat ∧ c.toNat ≤ 90
  · rw [if_pos hu] at h
    simp only [isDomChar, isAlphaN, isDigitN, Bool.or_eq_true, Bool.and_eq_true,
      decide_eq_true_eq, beq_iff_eq, h]
    omega
  · rw [if_neg hu] at h
    simp only [isDomChar, isAlphaN, isDigitN, Bool.or_eq_true, Bool.and_eq_true,
      decide_eq_true_eq, beq_iff_eq, h]

theorem toNat64_lowerChar (c : Char) :
    ((lowerChar c).toNat == 64) = (c.toNat == 64) := by
  have h := lowerChar_toNat c
  rw [Bool.eq_iff_iff]
  by_cases hu : 65 ≤ c.toNat ∧ c.toNat ≤ 90
  · rw [if_pos hu] at h
    simp only [beq_iff_eq, h]
    omega
  · rw [if_neg hu] at h
    simp only [beq_iff_eq, h]

theorem toNat45_lowerChar (c : Char) :
    ((lowerChar c).toNat == 45) = (c.toNat == 45) := by
  have h := lowerChar_toNat c
  rw [Bool.eq_iff_iff]
  by_cases hu : 65 ≤ c.toNat ∧ c.toNat ≤ 90
  · rw [if_pos hu] at h
    simp only [beq_iff_eq, h]
    omega
  · rw [if_neg hu] at h
    simp only [beq_iff_eq, h]

theorem lowerChar_of_isDigitN {c : Char} (h : isDigitN c = true) : lowerChar c = c := by
  apply lowerChar_eq_self
  simp only [isDigitN, Bool.and_eq_true, decide_eq_true_eq] at h
  omega

theorem lowerChar_of_toNat45 {c : Char} (h : (c.toNat == 45) = true) : lowerChar c = c := by
  apply lowerChar_eq_self
  simp only [beq_iff_eq] at h
  omega

theorem lowerChar_idem (c : Char) : lowerChar (lowerChar c) = lowerChar c := by
  by_cases hu : 65 ≤ c.toNat ∧ c.toNat ≤ 90
  · apply lowerChar_eq_self
    have h := lowerChar_toNat c
    rw [if_pos hu] at h
    omega
  · rw [lowerChar_eq_self hu, lowerChar_eq_self hu]

/-! ### String-level lemmas: strip, lower, and their interaction -/

theorem isWS_comp_lowerChar : isWS ∘ lowerChar = isWS :=
  funext isWS_lowerChar

theorem lowerL_idem (cs : List Char) : lowerL (lowerL cs) = lowerL cs := by
  simp only [lowerL, List.map_map]
  exact List.map_congr_left fun a _ => lowerChar_idem a

theorem stripL_lowerL (cs : List Char) : stripL (lowerL cs) = lowerL (stripL cs) := by
  unfold stripL lowerL
  rw [List.dropWhile_map, isWS_comp_lowerChar, ← List.map_reverse,
    List.dropWhile_map, isWS_comp_lowerChar, ← List.map_reverse]

theorem head?_dropWhile {p : α → Bool} {l : List α} {x : α}
    (h : (List.dropWhile p l).head? = some x) : p x = false := by
  induction l with
  | nil => simp at h
  | cons a t ih =>
      rw [List.dropWhile_cons] at h
      by_cases hp : p a = true
      · rw [if_pos hp] at h
        exact ih h
      · rw [if_neg hp] at h
        simp at h
        rw [← h]
        exact Bool.eq_false_iff.mpr hp

theorem dropWhile_eq_self_of_head {p : α → Bool} {l : List α}
    (h : ∀ x, l.head? = some x → p x = false) : List.dropWhile p l = l := by
  cases l with
  | nil => rfl
  | cons a t =>
      rw [List.dropWhile_cons, if_neg]
      rw [h a rfl]
      simp

theorem stripL_idem (cs : List Char) : stripL (stripL cs) = stripL cs := by
  set a := List.dropWhile isWS cs with ha
  set b := List.dropWhile isWS a.reverse with hb
  have hbrev : stripL cs = b.reverse := rfl
  have hii : List.dropWhile isWS b = b := by
    rw [hb]
    exact List.dropWhile_idempotent _ _
  have hpre : b.reverse <+: a := by
    rw [← List.reverse_reverse a, List.reverse_prefix]
    exact List.dropWhile_suffix _
  have hi : List.dropWhile isWS b.reverse = b.reverse := by
    apply dropWhile_eq_self_of_head
    intro x hx
    cases hbr : b.reverse with
    | nil => rw [hbr] at hx; simp at hx
    | cons y u =>
        rw [hbr] at hx
        simp at hx
        obtain ⟨t, hcat⟩ := hpre
        rw [hbr] at hcat
        have hhead : a.head? = some y := by
          rw [← hcat]
          rfl
        rw [← hx]
        exact head?_dropWhile (by rw [ha] at hhead; exact hhead)
  rw [hbrev]
  unfold stripL
  rw [hi, List.reverse_reverse, hii]

theorem stripS_idem (s : String) : stripS (stripS s) = stripS s := by
  unfold stripS
  exact congrArg String.mk (stripL_idem s.data)

theorem stripS_lowerS (s : String) : stripS (lowerS s) = lowerS (stripS s) := by
  unfold stripS lowerS
  exact congrArg String.mk (stripL_lowerL s.data)

theorem lowerS_data (s : String) : (lowerS s).data = lowerL s.data := rfl

theorem stripS_data (s : String) : (stripS s).data = stripL s.data := rfl

theorem string_ne_empty_iff (s : String) : s ≠ "" ↔ s.data ≠ [] := by
  constructor
  · intro h hc
    exact h (congrArg String.mk hc)
  · intro h hc
    rw [hc] at h
    exact h rfl

theorem lowerS_ne_empty {s : String} (h : s ≠ "") : lowerS s ≠ "" := by
  rw [string_ne_empty_iff] at h ⊢
  rw [lowerS_data]
  unfold lowerL
  intro hc
  exact h (List.map_eq_nil_iff.mp hc)

/-! ### Email regex and date-grammar interaction with lower-casing -/

theorem toNat46_lowerChar (c : Char) :
    ((lowerChar c).toNat == 46) = (c.toNat == 46) := by
  have h := lowerChar_toNat c
  rw [Bool.eq_iff_iff]
  by_cases hu : 65 ≤ c.toNat ∧ c.toNat ≤ 90
  · rw [if_pos hu] at h
    simp only [beq_iff_eq, h]
    omega
  · rw [if_neg hu] at h
    simp only [beq_iff_eq, h]

theorem at64_comp_lowerChar :
    (fun c => c.toNat != 64) ∘ lowerChar = (fun c => c.toNat != 64) := by
  funext c
  simp only [Function.comp_apply, bne]
  rw [toNat64_lowerChar]

theorem getD_lowerL {r : List Char} {i : Nat} (h : i < r.length) (d : Char) :
    (lowerL r).getD i d = lowerChar (r.getD i d) := by
  have hm : i < (lowerL r).length := by
    unfold lowerL
    rw [List.length_map]
    exact h
  rw [List.getD_eq_getElem _ _ hm, List.getD_eq_getElem _ _ h]
  unfold lowerL
  exact List.getElem_map _

theorem emailDomOk_lowerL {r : List Char} (h : emailDomOk r = true) :
    emailDomOk (lowerL r) = true := by
  unfold emailDomOk at h ⊢
  rw [List.any_eq_true] at h ⊢
  obtain ⟨i, hir, hcond⟩ := h
  have hil : i < r.length := List.mem_range.mp hir
  refine ⟨i, ?_, ?_⟩
  · apply List.mem_range.mpr
    unfold lowerL
    rw [List.length_map]
    exact hil
  · simp only [Bool.and_eq_true] at hcond ⊢
    obtain ⟨⟨⟨⟨h1, h2⟩, h3⟩, h4⟩, h5⟩ := hcond
    refine ⟨⟨⟨⟨h1, ?_⟩, ?_⟩, ?_⟩, ?_⟩
    · rw [getD_lowerL hil, toNat46_lowerChar]
      exact h2
    · unfold lowerL
      rw [← List.map_take, List.all_map]
      have : (isDomChar ∘ lowerChar) = isDomChar := funext isDomChar_lowerChar
      rw [this]
      exact h3
    · unfold lowerL
      rw [List.length_map]
      exact h4
    · unfold lowerL
      rw [← List.map_drop, List.all_map]
      have : (isAlphaN ∘ lowerChar) = isAlphaN := funext isAlphaN_lowerChar
      rw [this]
      exact h5

theorem emailMatchL_lowerL {cs : List Char} (h : emailMatchL cs = true) :
    emailMatchL (lowerL cs) = true := by
  unfold emailMatchL at h ⊢
  rw [show lowerL cs = List.map lowerChar cs from rfl,
    List.takeWhile_map, List.dropWhile_map, at64_comp_lowerChar]
  cases hd : List.dropWhile (fun c => c.toNat != 64) cs with
  | nil => rw [hd] at h; simp at h
  | cons x rest =>
      rw [hd] at h
      simp only [List.map_cons, Bool.and_eq_true] at h ⊢
      obtain ⟨⟨h1, h2⟩, h3⟩ := h
      refine ⟨⟨?_, ?_⟩, ?_⟩
      · cases hYt : List.takeWhile (fun c => c.toNat != 64) cs with
        | nil => rw [hYt] at h1; simp at h1
        | cons y u => simp
      · rw [List.all_map]
        have : (isLocalChar ∘ lowerChar) = isLocalChar := funext isLocalChar_lowerChar
        rw [this]
        exact h2
      · exact emailDomOk_lowerL h3

theorem EMAIL_RE_lowerS {s : String} (h : EMAIL_RE s = true) :
    EMAIL_RE (lowerS s) = true := by
  unfold EMAIL_RE at h ⊢
  rw [lowerS_data]
  exact emailMatchL_lowerL h

theorem emailValid_lowerCell {x : Cell} (hs : strOrNull x = true)
    (h : emailValid x = true) : emailValid (lowerCell x) = true := by
  cases x with
  | null => simp [emailValid, Cell.isNull] at h
  | str s =>
      unfold emailValid at h ⊢
      simp only [lowerCell, Cell.isNull, Bool.not_false, Bool.true_and] at h ⊢
      exact EMAIL_RE_lowerS h
  | num q => simp [strOrNull] at hs
  | ts t => simp [strOrNull] at hs

theorem parseIsoDate_lowerL (cs : List Char) :
    parseIsoDate (lowerL cs) = parseIsoDate cs := by
  by_cases h10 : cs.length = 10
  · have hlen : (lowerL cs).length = 10 := by
      unfold lowerL
      rw [List.length_map]
      exact h10
    have hg : ∀ i, i < 10 → (lowerL cs).getD i ' ' = lowerChar (cs.getD i ' ') := by
      intro i hi
      exact getD_lowerL (by omega) ' '
    unfold parseIsoDate
    simp only [h10, hlen, if_true]
    simp only [hg 0 (by omega), hg 1 (by omega), hg 2 (by omega), hg 3 (by omega),
        hg 4 (by omega), hg 5 (by omega), hg 6 (by omega), hg 7 (by omega),
        hg 8 (by omega), hg 9 (by omega), isDigitN_lowerChar, toNat45_lowerChar]
    split
    · rename_i hcond
      obtain ⟨⟨⟨⟨⟨⟨⟨⟨⟨h0, h1⟩, h2⟩, h3⟩, h4⟩, h5⟩, h6⟩, h7⟩, h8⟩, h9⟩ :=
        by simpa only [Bool.and_eq_true] using hcond
      simp only [lowerChar_of_isDigitN h0, lowerChar_of_isDigitN h1, lowerChar_of_isDigitN h2,
          lowerChar_of_isDigitN h3, lowerChar_of_isDigitN h5, lowerChar_of_isDigitN h6,
          lowerChar_of_isDigitN h8, lowerChar_of_isDigitN h9]
    · rfl
  · have hlen : ¬ (lowerL cs).length = 10 := by
      unfold lowerL
      rw [List.length_map]
      exact h10
    unfold parseIsoDate
    rw [if_neg h10, if_neg hlen]

/-! ### Deduplication machinery -/

theorem parseTS_lowerCell {x : Cell} (h : parseTS x = none) :
    parseTS (lowerCell x) = none := by
  cases x with
  | null => rfl
  | str s =>
      simp only [parseTS, lowerCell] at h ⊢
      rw [lowerS_data, parseIsoDate_lowerL]
      exact h
  | num q => simp [parseTS] at h
  | ts t => simp [parseTS] at h

theorem applyMask_nil {α : Type} (l : List α) : applyMask [] l = [] := rfl

theorem applyMask_cons {α : Type} (b : Bool) (m : List Bool) (x : α) (xs : List α) :
    applyMask (b :: m) (x :: xs) =
      if b then applyMask m xs else x :: applyMask m xs := rfl

theorem countFalse_nil : countFalse [] = 0 := rfl

theorem countFalse_cons (b : Bool) (m : List Bool) :
    countFalse (b :: m) = countFalse m + if b then 0 else 1 := by
  unfold countFalse
  rw [List.countP_cons]
  cases b <;> rfl

theorem applyMask_length {α : Type} :
    ∀ (m : List Bool) (l : List α), l.length = m.length →
      (applyMask m l).length = countFalse m := by
  intro m
  induction m with
  | nil =>
      intro l h
      rw [applyMask_nil]
      rfl
  | cons b m ih =>
      intro l h
      cases l with
      | nil => simp at h
      | cons x xs =>
          rw [applyMask_cons, countFalse_cons]
          simp at h
          cases b with
          | true => simp [ih xs h]
          | false => simp [ih xs h]

theorem applyMask_sublist {α : Type} :
    ∀ (m : List Bool) (l : List α), List.Sublist (applyMask m l) l := by
  intro m
  induction m with
  | nil =>
      intro l
      rw [applyMask_nil]
      exact List.nil_sublist l
  | cons b m ih =>
      intro l
      cases l with
      | nil => exact List.Sublist.refl []
      | cons x xs =>
          rw [applyMask_cons]
          cases b with
          | true =>
              rw [if_pos rfl]
              exact List.Sublist.cons x (ih xs)
          | false =>
              rw [if_neg Bool.false_ne_true]
              exact List.Sublist.cons₂ x (ih xs)

theorem applyMask_map {α β : Type} (f : α → β) :
    ∀ (m : List Bool) (l : List α),
      applyMask m (l.map f) = (applyMask m l).map f := by
  intro m
  induction m with
  | nil =>
      intro l
      rw [applyMask_nil, applyMask_nil]
      rfl
  | cons b m ih =>
      intro l
      cases l with
      | nil => rfl
      | cons x xs =>
          simp only [List.map_cons, applyMask_cons]
          cases b with
          | true => simp [ih xs]
          | false => simp [ih xs]

theorem applyMask_mem {α : Type} {m : List Bool} {l : List α} {x : α}
    (h : x ∈ applyMask m l) : x ∈ l :=
  (applyMask_sublist m l).subset h

theorem dupMask_length : ∀ (seen ks : List (List Cell)),
    (dupMask seen ks).length = ks.length := by
  intro seen ks
  induction ks generalizing seen with
  | nil => rfl
  | cons k t ih => simp [dupMask, ih]

theorem dupMask_congr : ∀ (s₁ s₂ ks : List (List Cell)),
    (∀ k, k ∈ s₁ ↔ k ∈ s₂) → dupMask s₁ ks = dupMask s₂ ks := by
  intro s₁ s₂ ks
  induction ks generalizing s₁ s₂ with
  | nil => intro _; rfl
  | cons k t ih =>
      intro h
      unfold dupMask
      rw [decide_eq_decide.mpr (h k), ih (k :: s₁) (k :: s₂) ?_]
      intro x
      simp [h x]

theorem applyMask_dupMask_firstOcc (key : List Cell → List Cell) :
    ∀ (rs seen : List (List Cell)),
      applyMask (dupMask seen (rs.map key)) rs = firstOccFilter key seen rs := by
  intro rs
  induction rs with
  | nil => intro seen; rfl
  | cons r t ih =>
      intro seen
      simp only [List.map_cons, dupMask, firstOccFilter]
      by_cases hm : key r ∈ seen
      · rw [applyMask_cons, if_pos (by simpa using hm), if_pos hm]
        rw [dupMask_congr (key r :: seen) seen (t.map key) ?_]
        · exact ih seen
        · intro x
          simp only [List.mem_cons]
          constructor
          · intro hx
            cases hx with
            | inl he => rw [he]; exact hm
            | inr hs => exact hs
          · intro hx
            exact Or.inr hx
      · rw [applyMask_cons, if_neg (by simpa using hm), if_neg hm]
        rw [ih (key r :: seen)]

theorem firstOcc_nodup (key : List Cell → List Cell) :
    ∀ (rs seen : List (List Cell)),
      ((firstOccFilter key seen rs).map key).Nodup ∧
      ∀ k ∈ (firstOccFilter key seen rs).map key, k ∉ seen := by
  intro rs
  induction rs with
  | nil => intro seen; exact ⟨List.nodup_nil, by simp [firstOccFilter]⟩
  | cons r t ih =>
      intro seen
      unfold firstOccFilter
      by_cases hm : key r ∈ seen
      · rw [if_pos hm]
        exact ih seen
      · rw [if_neg hm]
        obtain ⟨hnd, hns⟩ := ih (key r :: seen)
        simp only [List.map_cons, List.nodup_cons]
        refine ⟨⟨?_, hnd⟩, ?_⟩
        · intro hc
          exact (hns _ hc) (List.mem_cons_self _ _)
        · intro k hk
          cases hk with
          | head => exact hm
          | tail _ hk2 =>
              intro hks
              exact (hns _ hk2) (List.mem_cons_of_mem _ hks)

theorem firstOcc_of_nodup (key : List Cell → List Cell) :
    ∀ (rs seen : List (List Cell)), (rs.map key).Nodup →
      (∀ r ∈ rs, key r ∉ seen) → firstOccFilter key seen rs = rs := by
  intro rs
  induction rs with
  | nil => intro seen _ _; rfl
  | cons r t ih =>
      intro seen hnd hns
      unfold firstOccFilter
      rw [if_neg (hns r (List.mem_cons_self _ _))]
      simp only [List.map_cons, List.nodup_cons] at hnd
      rw [ih (key r :: seen) hnd.2 ?_]
      intro x hx
      simp only [List.mem_cons]
      intro hc
      cases hc with
      | inl he => exact hnd.1 (he ▸ List.mem_map_of_mem key hx)
      | inr hs => exact hns x (List.mem_cons_of_mem _ hx) hs

/-! ### Row extraction and masking commute -/

theorem getD_tail {α : Type} (l : List α) (i : Nat) (d : α) :
    l.tail.getD i d = l.getD (i + 1) d := by
  cases l with
  | nil => rfl
  | cons x xs => rfl

theorem rowsWith_zero (f : Dtype → Cell → Cell) (cols : List Col) :
    rowsWith f ⟨0, cols⟩ = [] := rfl

theorem rowsWith_succ (f : Dtype → Cell → Cell) (n : Nat) (cols : List Col) :
    rowsWith f ⟨n + 1, cols⟩ =
      (cols.map fun c => f c.dtype (c.cells.getD 0 Cell.null)) ::
        rowsWith f ⟨n, tailCols cols⟩ := by
  unfold rowsWith
  simp only [List.range_succ_eq_map, List.map_cons, List.map_map]
  refine congrArg (_ :: ·) ?_
  apply List.map_congr_left
  intro i _
  simp only [Function.comp_apply, tailCols, List.map_map]
  apply List.map_congr_left
  intro c _
  simp only [Function.comp_apply, getD_tail]

theorem rowsWith_applyMask (f : Dtype → Cell → Cell) :
    ∀ (mask : List Bool) (n : Nat) (cols : List Col),
      (∀ c ∈ cols, c.cells.length = n) → mask.length = n →
      rowsWith f ⟨countFalse mask,
          cols.map fun c => ⟨c.name, c.dtype, applyMask mask c.cells⟩⟩
        = applyMask mask (rowsWith f ⟨n, cols⟩) := by
  intro mask
  induction mask with
  | nil =>
      intro n cols _ hlen
      rw [applyMask_nil]
      exact rowsWith_zero f _
  | cons b m ih =>
      intro n cols hwf hlen
      simp only [List.length_cons] at hlen
      subst hlen
      have hwft : ∀ c ∈ tailCols cols, c.cells.length = m.length := by
        intro c hc
        unfold tailCols at hc
        obtain ⟨c0, hc0, hceq⟩ := List.mem_map.mp hc
        rw [← hceq]
        simp only [List.length_tail]
        rw [hwf c0 hc0]
        omega
      have hcell : ∀ c ∈ cols, applyMask (b :: m) c.cells =
          if b then applyMask m c.cells.tail
          else c.cells.getD 0 Cell.null :: applyMask m c.cells.tail := by
        intro c hc
        have hlc := hwf c hc
        cases hcs : c.cells with
        | nil => rw [hcs] at hlc; simp at hlc
        | cons x xs => rw [applyMask_cons]; rfl
      have htail : ∀ (mm : List Bool),
          (cols.map fun c => (⟨c.name, c.dtype, applyMask mm c.cells.tail⟩ : Col))
            = (tailCols cols).map fun c => ⟨c.name, c.dtype, applyMask mm c.cells⟩ := by
        intro mm
        unfold tailCols
        rw [List.map_map]
        rfl
      rw [rowsWith_succ, applyMask_cons]
      cases b with
      | true =>
          rw [if_pos rfl]
          have h1 : (cols.map fun c => (⟨c.name, c.dtype, applyMask (true :: m) c.cells⟩ : Col))
              = (tailCols cols).map fun c => ⟨c.name, c.dtype, applyMask m c.cells⟩ := by
            rw [← htail m]
            apply List.map_congr_left
            intro c hc
            rw [hcell c hc, if_pos rfl]
          have h2 : countFalse (true :: m) = countFalse m := by
            rw [countFalse_cons]
            rfl
          rw [h1, h2]
          exact ih m.length (tailCols cols) hwft rfl
      | false =>
          rw [if_neg Bool.false_ne_true]
          have h1 : (cols.map fun c => (⟨c.name, c.dtype, applyMask (false :: m) c.cells⟩ : Col))
              = cols.map fun c =>
                  ⟨c.name, c.dtype, c.cells.getD 0 Cell.null :: applyMask m c.cells.tail⟩ := by
            apply List.map_congr_left
            intro c hc
            rw [hcell c hc, if_neg Bool.false_ne_true]
          have h2 : countFalse (false :: m) = countFalse m + 1 := by
            rw [countFalse_cons]
            rfl
          rw [h1, h2, rowsWith_succ]
          refine congrArg₂ (· :: ·) ?_ ?_
          · rw [List.map_map]
            apply List.map_congr_left
            intro c hc
            rfl
          · have h3 : tailCols (cols.map fun c =>
                (⟨c.name, c.dtype, c.cells.getD 0 Cell.null :: applyMask m c.cells.tail⟩ : Col))
                = (tailCols cols).map fun c => ⟨c.name, c.dtype, applyMask m c.cells⟩ := by
              rw [← htail m]
              unfold tailCols
              rw [List.map_map]
              rfl
            rw [h3]
            exact ih m.length (tailCols cols) hwft rfl

/-! ### Deduplication stage: keys, rows, counts -/

theorem rowsWith_length (f : Dtype → Cell → Cell) (df : DF) :
    (rowsWith f df).length = df.nrows := by
  unfold rowsWith
  rw [List.length_map, List.length_range]

theorem dfKeys_length (df : DF) : (dfKeys df).length = df.nrows :=
  rowsWith_length _ df

theorem dfRows_length (df : DF) : (dfRows df).length = df.nrows :=
  rowsWith_length _ df

theorem dfKeys_eq_map_rows (df : DF) :
    dfKeys df = (dfRows df).map (rowKeyOf (df.cols.map Col.dtype)) := by
  unfold dfKeys dfRows rowsWith
  rw [List.map_map]
  apply List.map_congr_left
  intro i _
  simp only [Function.comp_apply, rowKeyOf]
  rw [List.zipWith_map, List.zipWith_same]

theorem dedupDF_mask_length (df : DF) :
    (dupMask [] (dfKeys df)).length = df.nrows := by
  rw [dupMask_length, dfKeys_length]

theorem dedupDF_fst_nrows (df : DF) :
    (dedupDF df).fst.nrows = countFalse (dupMask [] (dfKeys df)) := rfl

theorem dedupDF_snd (df : DF) :
    (dedupDF df).snd = df.nrows - countFalse (dupMask [] (dfKeys df)) := rfl

theorem dedupDF_nrows_le (df : DF) : (dedupDF df).fst.nrows ≤ df.nrows := by
  rw [dedupDF_fst_nrows]
  calc countFalse (dupMask [] (dfKeys df))
      ≤ (dupMask [] (dfKeys df)).length := List.countP_le_length _
    _ = df.nrows := dedupDF_mask_length df

theorem dedupDF_rows (df : DF)
    (hwf : ∀ c ∈ df.cols, c.cells.length = df.nrows) :
    dfRows (dedupDF df).fst =
      firstOccFilter (rowKeyOf (df.cols.map Col.dtype)) [] (dfRows df) := by
  have h1 : dfRows (dedupDF df).fst
      = applyMask (dupMask [] (dfKeys df)) (dfRows df) := by
    unfold dfRows
    have := rowsWith_applyMask (fun _ x => x) (dupMask [] (dfKeys df)) df.nrows
      df.cols hwf (dedupDF_mask_length df)
    exact this
  rw [h1, dfKeys_eq_map_rows]
  exact applyMask_dupMask_firstOcc _ (dfRows df) []

theorem dedupDF_rows_sublist (df : DF)
    (hwf : ∀ c ∈ df.cols, c.cells.length = df.nrows) :
    List.Sublist (dfRows (dedupDF df).fst) (dfRows df) := by
  have h1 : dfRows (dedupDF df).fst
      = applyMask (dupMask [] (dfKeys df)) (dfRows df) := by
    unfold dfRows
    exact rowsWith_applyMask (fun _ x => x) (dupMask [] (dfKeys df)) df.nrows
      df.cols hwf (dedupDF_mask_length df)
  rw [h1]
  exact applyMask_sublist _ _

/-! ### Shape preservation of the per-column stages -/

theorem colStage1_fst_name (c : Col) : (colStage1 c).fst.name = c.name := by
  unfold colStage1
  split <;> rfl

theorem colStage1_fst_dtype (c : Col) : (colStage1 c).fst.dtype = c.dtype := by
  unfold colStage1
  split <;> rfl

theorem colStage1_fst_len (c : Col) :
    (colStage1 c).fst.cells.length = c.cells.length := by
  unfold colStage1
  split
  · simp
  · rfl

theorem colStage2_fst_name (c : Col) : (colStage2 c).fst.name = c.name := by
  unfold colStage2
  split
  · dsimp only
    split <;> rfl
  · rfl

theorem colStage2_fst_len (c : Col) :
    (colStage2 c).fst.cells.length = c.cells.length := by
  unfold colStage2
  split
  · dsimp only
    split
    · simp
    · rfl
  · rfl

theorem colStage3_fst_name (c : Col) : (colStage3 c).fst.name = c.name := by
  unfold colStage3
  split <;> rfl

theorem colStage3_fst_dtype (c : Col) : (colStage3 c).fst.dtype = c.dtype := by
  unfold colStage3
  split <;> rfl

theorem colStage3_fst_len (c : Col) :
    (colStage3 c).fst.cells.length = c.cells.length := by
  unfold colStage3
  split
  · simp
  · rfl

theorem colPhase123_fst_name (c : Col) : (colPhase123 c).fst.name = c.name := by
  unfold colPhase123
  rw [colStage3_fst_name, colStage2_fst_name, colStage1_fst_name]

theorem colPhase123_fst_len (c : Col) :
    (colPhase123 c).fst.cells.length = c.cells.length := by
  unfold colPhase123
  rw [colStage3_fst_len, colStage2_fst_len, colStage1_fst_len]

theorem colImpute_fst_name (c : Col) : (colImpute c).fst.name = c.name := by
  unfold colImpute
  dsimp only
  split
  · rfl
  · split
    · rfl
    · split <;> rfl

theorem colImpute_fst_dtype (c : Col) : (colImpute c).fst.dtype = c.dtype := by
  unfold colImpute
  dsimp only
  split
  · rfl
  · split
    · rfl
    · split <;> rfl

theorem colImpute_fst_len (c : Col) :
    (colImpute c).fst.cells.length = c.cells.length := by
  unfold colImpute
  dsimp only
  split
  · rfl
  · split
    · simp [fillNulls]
    · split <;> simp [fillNulls]

/-! ### Claim theorems -/

/-- C2: for every input dataframe the audit satisfies
`rows_after = rows_before - duplicates_removed` (and the removed count
never exceeds the initial row count); moreover the per-column stages
(text/temporal/email normalization and imputation) preserve the length of
every column, so only the Deduplicator changes the row count. -/
theorem clean_rows_conservation (df : DF) :
    (clean_dataframe df).snd.rows_after
        = (clean_dataframe df).snd.rows_before
            - (clean_dataframe df).snd.duplicates_removed ∧
    (clean_dataframe df).snd.duplicates_removed
        ≤ (clean_dataframe df).snd.rows_before ∧
    (∀ c : Col, (colPhase123 c).fst.cells.length = c.cells.length) ∧
    (∀ c : Col, (colImpute c).fst.cells.length = c.cells.length) := by
  have hb : (clean_dataframe df).snd.rows_before = df.nrows := rfl
  have ha : (clean_dataframe df).snd.rows_after
      = (dedupDF ⟨df.nrows, (df.cols.map colPhase123).map Prod.fst⟩).fst.nrows := rfl
  have hd : (clean_dataframe df).snd.duplicates_removed
      = if 0 < (dedupDF ⟨df.nrows, (df.cols.map colPhase123).map Prod.fst⟩).snd
        then (dedupDF ⟨df.nrows, (df.cols.map colPhase123).map Prod.fst⟩).snd
        else 0 := rfl
  have hnr : (DF.mk df.nrows ((df.cols.map colPhase123).map Prod.fst)).nrows
      = df.nrows := rfl
  have hsnd := dedupDF_snd ⟨df.nrows, (df.cols.map colPhase123).map Prod.fst⟩
  have hfst := dedupDF_fst_nrows ⟨df.nrows, (df.cols.map colPhase123).map Prod.fst⟩
  have hle := dedupDF_nrows_le ⟨df.nrows, (df.cols.map colPhase123).map Prod.fst⟩
  rw [hnr] at hsnd hle
  have hif : (if 0 < (dedupDF ⟨df.nrows, (df.cols.map colPhase123).map Prod.fst⟩).snd
        then (dedupDF ⟨df.nrows, (df.cols.map colPhase123).map Prod.fst⟩).snd
        else 0)
      = (dedupDF ⟨df.nrows, (df.cols.map colPhase123).map Prod.fst⟩).snd := by
    split <;> omega
  refine ⟨?_, ?_, fun c => colPhase123_fst_len c, fun c => colImpute_fst_len c⟩
  · rw [hb, ha, hd, hif]
    omega
  · rw [hb, hd, hif]
    omega

/-- C6: the Deduplicator keeps exactly the first occurrence, in original
row order, of each group of rows with equal comparison keys (object
columns lower-cased and stripped, null equal to null, other columns
as-is): its output rows are precisely `firstOccFilter` — the direct
transcription of the spec's "keep the first occurrence" rule — applied to
the input rows, and they form a sublist of the input rows (relative order
preserved). -/
theorem dedupDF_first_occurrence_order (df : DF)
    (hlen : ∀ c ∈ df.cols, c.cells.length = df.nrows) :
    dfRows (dedupDF df).fst
        = firstOccFilter (rowKeyOf (df.cols.map Col.dtype)) [] (dfRows df) ∧
    List.Sublist (dfRows (dedupDF df).fst) (dfRows df) :=
  ⟨dedupDF_rows df hlen, dedupDF_rows_sublist df hlen⟩

/-- Witness for C6 at a concrete dataframe: the rows `["a"; "x"]`,
`[" A "; "y"]` (a duplicate of the first under the case/space-insensitive
key) and `["b"; "x"]` keep rows 0 and 2 in order. -/
theorem dedupDF_first_occurrence_order_witness :
    (∀ c ∈ (DF.mk 3 [Col.mk "name" Dtype.object
        [Cell.str "a", Cell.str " A ", Cell.str "b"],
      Col.mk "v" Dtype.numeric [Cell.num 1, Cell.num 1, Cell.num 2]]).cols,
        c.cells.length = 3) ∧
    (dfRows (dedupDF (DF.mk 3 [Col.mk "name" Dtype.object
        [Cell.str "a", Cell.str " A ", Cell.str "b"],
      Col.mk "v" Dtype.numeric [Cell.num 1, Cell.num 1, Cell.num 2]])).fst
        = firstOccFilter (rowKeyOf ((DF.mk 3 [Col.mk "name" Dtype.object
        [Cell.str "a", Cell.str " A ", Cell.str "b"],
      Col.mk "v" Dtype.numeric [Cell.num 1, Cell.num 1, Cell.num 2]]).cols.map Col.dtype)) []
          (dfRows (DF.mk 3 [Col.mk "name" Dtype.object
        [Cell.str "a", Cell.str " A ", Cell.str "b"],
      Col.mk "v" Dtype.numeric [Cell.num 1, Cell.num 1, Cell.num 2]])) ∧
      List.Sublist (dfRows (dedupDF (DF.mk 3 [Col.mk "name" Dtype.object
        [Cell.str "a", Cell.str " A ", Cell.str "b"],
      Col.mk "v" Dtype.numeric [Cell.num 1, Cell.num 1, Cell.num 2]])).fst)
        (dfRows (DF.mk 3 [Col.mk "name" Dtype.object
        [Cell.str "a", Cell.str " A ", Cell.str "b"],
      Col.mk "v" Dtype.numeric [Cell.num 1, Cell.num 1, Cell.num 2]]))) :=
  ⟨by decide,
   dedupDF_first_occurrence_order _ (by decide)⟩

/-! ### Mode and imputer lemmas -/

theorem isNull_iff (x : Cell) : x.isNull = true ↔ x = Cell.null := by
  cases x <;> simp [Cell.isNull]

theorem foldl_opt_mem {α : Type} (step : Option α → α → Option α) (S : List α)
    (hstep : ∀ acc x, x ∈ S → (∀ v, acc = some v → v ∈ S) →
      ∀ v, step acc x = some v → v ∈ S) :
    ∀ (l : List α) (acc : Option α), (∀ x ∈ l, x ∈ S) →
      (∀ v, acc = some v → v ∈ S) →
      ∀ v, l.foldl step acc = some v → v ∈ S := by
  intro l
  induction l with
  | nil =>
      intro acc _ hacc v hv
      exact hacc v hv
  | cons x t ih =>
      intro acc hl hacc v hv
      refine ih (step acc x) (fun y hy => hl y (List.mem_cons_of_mem _ hy)) ?_ v hv
      exact hstep acc x (hl x (List.mem_cons_self _ _)) hacc

theorem foldl_opt_isSome {α : Type} (step : Option α → α → Option α)
    (hstep : ∀ acc x, (step acc x).isSome = true) :
    ∀ (l : List α) (acc : Option α), (l ≠ [] ∨ acc.isSome = true) →
      (l.foldl step acc).isSome = true := by
  intro l
  induction l with
  | nil =>
      intro acc h
      cases h with
      | inl h => exact absurd rfl h
      | inr h => exact h
  | cons x t ih =>
      intro acc _
      exact ih (step acc x) (Or.inr (hstep acc x))

theorem modeCells_mem {l : List Cell} {v : Cell} (h : modeCells l = some v) :
    v ∈ l.filter fun x => !x.isNull := by
  unfold modeCells at h
  refine foldl_opt_mem _ (l.filter fun x => !x.isNull) ?_ _ none
    (fun x hx => hx) (by intro v hv; cases hv) v h
  intro acc x hx hacc v hv
  cases acc with
  | none =>
      simp only at hv
      rw [← Option.some_inj.mp hv]
      exact hx
  | some b =>
      simp only at hv
      split at hv
      · rw [← Option.some_inj.mp hv]
        exact hx
      · split at hv
        · rw [← Option.some_inj.mp hv]
          exact hx
        · rw [← Option.some_inj.mp hv]
          exact hacc b rfl

theorem modeCells_none {l : List Cell} (h : modeCells l = none) :
    ∀ x ∈ l, x = Cell.null := by
  intro x hx
  by_contra hne
  have hmem : x ∈ l.filter fun y => !y.isNull := by
    rw [List.mem_filter]
    refine ⟨hx, ?_⟩
    cases x
    · exact absurd rfl hne
    all_goals rfl
  have hsome := foldl_opt_isSome
    (fun acc y => match acc with
      | none => some y
      | some b =>
          if (l.filter fun z => !z.isNull).count y
              > (l.filter fun z => !z.isNull).count b then some y
          else if (l.filter fun z => !z.isNull).count y
              = (l.filter fun z => !z.isNull).count b ∧ cellLE y b = true then some y
          else some b)
    (by
      intro acc y
      cases acc with
      | none => rfl
      | some b =>
          simp only
          split
          · rfl
          · split <;> rfl)
    (l.filter fun x => !x.isNull) none
    (Or.inl (by intro hc; rw [hc] at hmem; cases hmem))
  unfold modeCells at h
  rw [h] at hsome
  cases hsome

theorem mem_fillNulls {v : Cell} {l : List Cell} {x : Cell}
    (h : x ∈ fillNulls v l) : x = v ∨ (x ∈ l ∧ x.isNull = false) := by
  unfold fillNulls at h
  obtain ⟨y, hy, hxy⟩ := List.mem_map.mp h
  by_cases hn : y.isNull = true
  · rw [if_pos hn] at hxy
    exact Or.inl hxy.symm
  · rw [if_neg hn] at hxy
    refine Or.inr ⟨hxy ▸ hy, ?_⟩
    rw [← hxy]
    exact Bool.not_eq_true _ |>.mp hn

theorem colImpute_skip {c : Col} (hm : countNulls c.cells = 0) :
    colImpute c = (c, none, none) := by
  unfold colImpute
  dsimp only
  rw [if_pos hm]

theorem colImpute_num {c : Col} (hm : ¬countNulls c.cells = 0)
    (hd : c.dtype = Dtype.numeric) :
    colImpute c =
      (⟨c.name, c.dtype,
          fillNulls (Cell.num (if (c.cells.any fun x => !x.isNull) = true
            then medianRat (ratsOf c.cells) else 0)) c.cells⟩,
        some (countNulls c.cells),
        some ("median=" ++ pyFloatStr (if (c.cells.any fun x => !x.isNull) = true
            then medianRat (ratsOf c.cells) else 0))) := by
  unfold colImpute
  dsimp only
  rw [if_neg hm, if_pos hd]

theorem colImpute_dt {c : Col} (hm : ¬countNulls c.cells = 0)
    (hd : c.dtype = Dtype.datetime) :
    colImpute c =
      (⟨c.name, c.dtype, fillNulls ((modeCells c.cells).getD Cell.null) c.cells⟩,
        some (countNulls c.cells), some "mode (datetime)") := by
  unfold colImpute
  dsimp only
  rw [if_neg hm, if_neg (by rw [hd]; intro hc; cases hc), if_pos hd]

theorem colImpute_other {c : Col} (hm : ¬countNulls c.cells = 0)
    (hn : ¬c.dtype = Dtype.numeric) (hd : ¬c.dtype = Dtype.datetime) :
    colImpute c =
      (⟨c.name, c.dtype,
          fillNulls ((modeCells c.cells).getD (Cell.str "Unknown")) c.cells⟩,
        some (countNulls c.cells),
        some ("mode=\x27" ++ pyStr ((modeCells c.cells).getD (Cell.str "Unknown")) ++ "\x27")) := by
  unfold colImpute
  dsimp only
  rw [if_neg hm, if_neg hn, if_neg hd]

theorem colImpute_no_null (c : Col) :
    ∀ x ∈ (colImpute c).fst.cells, x = Cell.null →
      (colImpute c).fst.dtype = Dtype.datetime ∧
      ∀ y ∈ (colImpute c).fst.cells, y = Cell.null := by
  intro x hx hxn
  subst hxn
  by_cases hm : countNulls c.cells = 0
  · exfalso
    rw [colImpute_skip hm] at hx
    have := List.countP_eq_zero.mp hm _ hx
    exact this rfl
  by_cases hd : c.dtype = Dtype.numeric
  · exfalso
    rw [colImpute_num hm hd] at hx
    rcases mem_fillNulls hx with he | ⟨_, hni⟩
    · cases he
    · cases hni
  by_cases hdt : c.dtype = Dtype.datetime
  · cases hmode : modeCells c.cells with
    | some v =>
        exfalso
        rw [colImpute_dt hm hdt] at hx
        dsimp only at hx
        rw [hmode, Option.getD_some] at hx
        have hvnn := modeCells_mem hmode
        rw [List.mem_filter] at hvnn
        rcases mem_fillNulls hx with he | ⟨_, hni⟩
        · have := hvnn.2
          rw [← he] at this
          cases this
        · cases hni
    | none =>
        rw [colImpute_dt hm hdt]
        refine ⟨hdt, ?_⟩
        intro y hy
        dsimp only at hy
        rw [hmode] at hy
        rcases mem_fillNulls hy with he | ⟨hyl, hni⟩
        · simpa using he
        · exfalso
          rw [isNull_iff y |>.mpr (modeCells_none hmode y hyl)] at hni
          cases hni
  · exfalso
    rw [colImpute_other hm hd hdt] at hx
    cases hmode : modeCells c.cells with
    | some v =>
        dsimp only at hx
        rw [hmode, Option.getD_some] at hx
        have hvnn := modeCells_mem hmode
        rw [List.mem_filter] at hvnn
        rcases mem_fillNulls hx with he | ⟨_, hni⟩
        · have := hvnn.2
          rw [← he] at this
          cases this
        · cases hni
    | none =>
        dsimp only at hx
        rw [hmode] at hx
        rcases mem_fillNulls hx with he | ⟨_, hni⟩
        · cases he
        · cases hni

/-- C1 (amended): after `clean_dataframe`, a column containing a null is
necessarily a datetime column all of whose values are null (the NaT mode
fallback leaves an entirely-null datetime column untouched); every other
column is null-free. -/
theorem clean_no_null_outside_allnull_datetime (df : DF) :
    ∀ c ∈ (clean_dataframe df).fst.cols, Cell.null ∈ c.cells →
      c.dtype = Dtype.datetime ∧ ∀ y ∈ c.cells, y = Cell.null := by
  intro c hc hnull
  have hcols : (clean_dataframe df).fst.cols
      = (dedupDF ⟨df.nrows, (df.cols.map colPhase123).map Prod.fst⟩).fst.cols.map
          fun b => (colImpute b).fst := by
    show ((dedupDF ⟨df.nrows, (df.cols.map colPhase123).map Prod.fst⟩).fst.cols.map
        colImpute).map Prod.fst = _
    rw [List.map_map]
    rfl
  rw [hcols] at hc
  obtain ⟨b, hb, hbc⟩ := List.mem_map.mp hc
  rw [← hbc] at hnull ⊢
  exact colImpute_no_null b Cell.null hnull rfl

/-- Counterexample to C1 as stated: a well-formed input with an all-null
datetime column still contains a null after cleaning, so the terminal
"no nulls at all" postcondition fails on the code. -/
theorem clean_allnull_datetime_counterexample :
    wellformed (DF.mk 1 [Col.mk "d" Dtype.datetime [Cell.null]]) ∧
    Cell.null ∈ ((clean_dataframe
        (DF.mk 1 [Col.mk "d" Dtype.datetime [Cell.null]])).fst.cols.getD 0
        (Col.mk "" Dtype.object [])).cells :=
  ⟨by decide, by decide⟩

/-- Witness for the amended C1 at a concrete input: the all-null datetime
column survives and is classified by the theorem. -/
theorem clean_no_null_outside_allnull_datetime_witness :
    Col.mk "t" Dtype.datetime [Cell.null] ∈
        (clean_dataframe (DF.mk 1 [Col.mk "t" Dtype.datetime [Cell.null]])).fst.cols ∧
    Cell.null ∈ (Col.mk "t" Dtype.datetime [Cell.null]).cells ∧
    ((Col.mk "t" Dtype.datetime [Cell.null]).dtype = Dtype.datetime ∧
      ∀ y ∈ (Col.mk "t" Dtype.datetime [Cell.null]).cells, y = Cell.null) :=
  ⟨by decide, by decide,
   clean_no_null_outside_allnull_datetime
     (DF.mk 1 [Col.mk "t" Dtype.datetime [Cell.null]])
     (Col.mk "t" Dtype.datetime [Cell.null]) (by decide) (by decide)⟩

/-- C3 (amended): for every object column the Text Normalizer maps each
cell through stringify-strip-demote: a non-null string is stripped (and
kept when non-empty), a string that strips to empty becomes null, and a
null cell is stringified to the text `"nan"` (so nulls are not preserved);
the null-count delta, which may be negative, is recorded iff non-zero. -/
theorem textNormalizer_behavior (c : Col) (h : c.dtype = Dtype.object) :
    (colStage1 c).fst.cells = c.cells.map normCell1 ∧
    (∀ s : String, stripS s ≠ "" → normCell1 (Cell.str s) = Cell.str (stripS s)) ∧
    (∀ s : String, stripS s = "" → normCell1 (Cell.str s) = Cell.null) ∧
    normCell1 Cell.null = Cell.str "nan" ∧
    (colStage1 c).snd =
      (if ((countNulls (c.cells.map normCell1) : Int)
          - (countNulls c.cells : Int)) = 0 then none
        else some ((countNulls (c.cells.map normCell1) : Int)
          - (countNulls c.cells : Int))) := by
  refine ⟨?_, ?_, ?_, ?_, ?_⟩
  · unfold colStage1
    rw [if_pos h]
  · intro s hs
    unfold normCell1
    dsimp only [pyStr]
    rw [if_neg hs]
  · intro s hs
    unfold normCell1
    dsimp only [pyStr]
    rw [if_pos hs]
  · decide
  · unfold colStage1
    rw [if_pos h]

/-- Counterexample to C3 as stated: a null cell in an object column is
turned into the text `"nan"` by `astype(str)`, and the recorded delta is
`-1` (the null count went down), contradicting "nulls are never turned
into text". -/
theorem textNormalizer_null_to_text_counterexample :
    (colStage1 (Col.mk "c" Dtype.object [Cell.null])).fst.cells
        = [Cell.str "nan"] ∧
    (colStage1 (Col.mk "c" Dtype.object [Cell.null])).snd = some (-1) := by
  decide

/-- Witness for the amended C3 at a concrete object column. -/
theorem textNormalizer_behavior_witness :
    (Col.mk "n" Dtype.object [Cell.str " a ", Cell.str "  "]).dtype
        = Dtype.object ∧
    ((colStage1 (Col.mk "n" Dtype.object [Cell.str " a ", Cell.str "  "])).fst.cells
        = (Col.mk "n" Dtype.object
            [Cell.str " a ", Cell.str "  "]).cells.map normCell1 ∧
      (∀ s : String, stripS s ≠ "" → normCell1 (Cell.str s) = Cell.str (stripS s)) ∧
      (∀ s : String, stripS s = "" → normCell1 (Cell.str s) = Cell.null) ∧
      normCell1 Cell.null = Cell.str "nan" ∧
      (colStage1 (Col.mk "n" Dtype.object [Cell.str " a ", Cell.str "  "])).snd =
        (if ((countNulls ((Col.mk "n" Dtype.object
              [Cell.str " a ", Cell.str "  "]).cells.map normCell1) : Int)
            - (countNulls (Col.mk "n" Dtype.object
              [Cell.str " a ", Cell.str "  "]).cells : Int)) = 0 then none
          else some ((countNulls ((Col.mk "n" Dtype.object
              [Cell.str " a ", Cell.str "  "]).cells.map normCell1) : Int)
            - (countNulls (Col.mk "n" Dtype.object
              [Cell.str " a ", Cell.str "  "]).cells : Int)))) :=
  ⟨rfl, textNormalizer_behavior (Col.mk "n" Dtype.object
    [Cell.str " a ", Cell.str "  "]) rfl⟩

/-- C7: the Temporal Parser acts on a column iff the name heuristic
matches and at least one value parses; in that case it replaces the cells
by the parsed timestamps (unparseable values becoming null), retypes the
column to datetime and records the parse count; otherwise — name mismatch
or zero parses — the column is left completely unchanged and nothing is
recorded. -/
theorem temporalParser_frame (c : Col) :
    (nameHint c.name = false → colStage2 c = (c, none)) ∧
    (nameHint c.name = true →
      ((c.cells.map parseTS).countP Option.isSome = 0 → colStage2 c = (c, none)) ∧
      (0 < (c.cells.map parseTS).countP Option.isSome →
        colStage2 c = (⟨c.name, Dtype.datetime,
            (c.cells.map parseTS).map fun o => match o with
              | some t => Cell.ts t
              | none => Cell.null⟩,
          some ((c.cells.map parseTS).countP Option.isSome)))) := by
  refine ⟨?_, ?_⟩
  · intro h
    unfold colStage2
    rw [if_neg (by rw [h]; exact Bool.false_ne_true)]
  · intro h
    refine ⟨?_, ?_⟩
    · intro h0
      unfold colStage2
      rw [if_pos h]
      dsimp only
      rw [if_neg (by omega)]
    · intro hpos
      unfold colStage2
      rw [if_pos h]
      dsimp only
      rw [if_pos hpos]

/-- Witness for C7 at a concrete column named `created_at` with one
parseable and one unparseable value. -/
theorem temporalParser_frame_witness :
    nameHint (Col.mk "created_at" Dtype.object
        [Cell.str "2023-01-15", Cell.str "not-a-date"]).name = true ∧
    0 < ((Col.mk "created_at" Dtype.object
        [Cell.str "2023-01-15", Cell.str "not-a-date"]).cells.map
          parseTS).countP Option.isSome ∧
    colStage2 (Col.mk "created_at" Dtype.object
        [Cell.str "2023-01-15", Cell.str "not-a-date"]) =
      (⟨(Col.mk "created_at" Dtype.object
            [Cell.str "2023-01-15", Cell.str "not-a-date"]).name, Dtype.datetime,
          ((Col.mk "created_at" Dtype.object
            [Cell.str "2023-01-15", Cell.str "not-a-date"]).cells.map
              parseTS).map fun o => match o with
            | some t => Cell.ts t
            | none => Cell.null⟩,
        some (((Col.mk "created_at" Dtype.object
            [Cell.str "2023-01-15", Cell.str "not-a-date"]).cells.map
              parseTS).countP Option.isSome)) :=
  ⟨by decide, by decide,
   ((temporalParser_frame (Col.mk "created_at" Dtype.object
       [Cell.str "2023-01-15", Cell.str "not-a-date"])).2 (by decide)).2 (by decide)⟩

/-- C8: for an object column whose lower-cased name contains `"email"`,
the Email Normalizer always records both `emails_valid_before` and
`emails_valid_after` (even when both are zero) and lower-cases every cell
unconditionally — strings (valid or not) are lower-cased, nulls stay
null. -/
theorem emailNormalizer_always_records (c : Col) (hd : c.dtype = Dtype.object)
    (he : containsSub "email".data (lowerL c.name.data) = true) :
    (colStage3 c).snd = some (c.cells.countP emailValid,
        (c.cells.map lowerCell).countP emailValid) ∧
    (colStage3 c).fst.cells = c.cells.map lowerCell ∧
    (∀ s : String, lowerCell (Cell.str s) = Cell.str (lowerS s)) ∧
    lowerCell Cell.null = Cell.null := by
  refine ⟨?_, ?_, fun s => rfl, rfl⟩
  · unfold colStage3
    rw [if_pos ⟨hd, he⟩]
  · unfold colStage3
    rw [if_pos ⟨hd, he⟩]

/-- Witness for C8 at a column named `email` containing only an invalid
address: both keys are still recorded, with value zero. -/
theorem emailNormalizer_always_records_witness :
    (Col.mk "email" Dtype.object [Cell.str "bad"]).dtype = Dtype.object ∧
    containsSub "email".data
        (lowerL (Col.mk "email" Dtype.object [Cell.str "bad"]).name.data) = true ∧
    ((colStage3 (Col.mk "email" Dtype.object [Cell.str "bad"])).snd
        = some ((Col.mk "email" Dtype.object [Cell.str "bad"]).cells.countP emailValid,
          ((Col.mk "email" Dtype.object [Cell.str "bad"]).cells.map
            lowerCell).countP emailValid) ∧
      (colStage3 (Col.mk "email" Dtype.object [Cell.str "bad"])).fst.cells
        = (Col.mk "email" Dtype.object [Cell.str "bad"]).cells.map lowerCell ∧
      (∀ s : String, lowerCell (Cell.str s) = Cell.str (lowerS s)) ∧
      lowerCell Cell.null = Cell.null) ∧
    (colStage3 (Col.mk "email" Dtype.object [Cell.str "bad"])).snd = some (0, 0) :=
  ⟨rfl, by decide,
   emailNormalizer_always_records (Col.mk "email" Dtype.object [Cell.str "bad"])
     rfl (by decide),
   by decide⟩

/-- C9: for a numeric column with at least one null, the Imputer fills
every null with the median of the non-null values (0.0 when the column is
entirely null), records `imputed_missing` as the number of nulls, and
records a strategy string embedding the decimal rendering of the value
used; afterwards the column has no nulls. -/
theorem imputer_numeric_median (c : Col) (hd : c.dtype = Dtype.numeric)
    (hm : 0 < countNulls c.cells) :
    colImpute c = (⟨c.name, c.dtype,
        fillNulls (Cell.num (if (c.cells.any fun x => !x.isNull) = true
          then medianRat (ratsOf c.cells) else 0)) c.cells⟩,
      some (countNulls c.cells),
      some ("median=" ++ pyFloatStr (if (c.cells.any fun x => !x.isNull) = true
          then medianRat (ratsOf c.cells) else 0))) ∧
    (∀ y ∈ (colImpute c).fst.cells, y.isNull = false) ∧
    (∃ pre : String, (colImpute c).snd.2 = some (pre ++ pyFloatStr
        (if (c.cells.any fun x => !x.isNull) = true
          then medianRat (ratsOf c.cells) else 0))) := by
  have hmm : ¬countNulls c.cells = 0 := by omega
  have h1 := colImpute_num hmm hd
  refine ⟨h1, ?_, ⟨"median=", by rw [h1]⟩⟩
  intro y hy
  rw [h1] at hy
  rcases mem_fillNulls hy with he | ⟨_, hni⟩
  · rw [he]
    rfl
  · exact hni

/-- Witness for C9 at the spec's example `[10, 20, null]`: the null is
filled with the median 15.0, one value is imputed, and the strategy
string is `"median=15.0"`. -/
theorem imputer_numeric_median_witness :
    (Col.mk "amount" Dtype.numeric
        [Cell.num 10, Cell.num 20, Cell.null]).dtype = Dtype.numeric ∧
    0 < countNulls (Col.mk "amount" Dtype.numeric
        [Cell.num 10, Cell.num 20, Cell.null]).cells ∧
    (colImpute (Col.mk "amount" Dtype.numeric
        [Cell.num 10, Cell.num 20, Cell.null])
      = (⟨(Col.mk "amount" Dtype.numeric
            [Cell.num 10, Cell.num 20, Cell.null]).name,
          (Col.mk "amount" Dtype.numeric
            [Cell.num 10, Cell.num 20, Cell.null]).dtype,
          fillNulls (Cell.num (if ((Col.mk "amount" Dtype.numeric
              [Cell.num 10, Cell.num 20, Cell.null]).cells.any
                fun x => !x.isNull) = true
            then medianRat (ratsOf (Col.mk "amount" Dtype.numeric
              [Cell.num 10, Cell.num 20, Cell.null]).cells) else 0))
            (Col.mk "amount" Dtype.numeric
              [Cell.num 10, Cell.num 20, Cell.null]).cells⟩,
        some (countNulls (Col.mk "amount" Dtype.numeric
            [Cell.num 10, Cell.num 20, Cell.null]).cells),
        some ("median=" ++ pyFloatStr (if ((Col.mk "amount" Dtype.numeric
              [Cell.num 10, Cell.num 20, Cell.null]).cells.any
                fun x => !x.isNull) = true
            then medianRat (ratsOf (Col.mk "amount" Dtype.numeric
              [Cell.num 10, Cell.num 20, Cell.null]).cells) else 0))) ∧
      (∀ y ∈ (colImpute (Col.mk "amount" Dtype.numeric
          [Cell.num 10, Cell.num 20, Cell.null])).fst.cells, y.isNull = false) ∧
      (∃ pre : String, (colImpute (Col.mk "amount" Dtype.numeric
          [Cell.num 10, Cell.num 20, Cell.null])).snd.2
        = some (pre ++ pyFloatStr (if ((Col.mk "amount" Dtype.numeric
              [Cell.num 10, Cell.num 20, Cell.null]).cells.any
                fun x => !x.isNull) = true
            then medianRat (ratsOf (Col.mk "amount" Dtype.numeric
              [Cell.num 10, Cell.num 20, Cell.null]).cells) else 0)))) ∧
    (colImpute (Col.mk "amount" Dtype.numeric
        [Cell.num 10, Cell.num 20, Cell.null])).fst.cells
      = [Cell.num 10, Cell.num 20, Cell.num 15] ∧
    (colImpute (Col.mk "amount" Dtype.numeric
        [Cell.num 10, Cell.num 20, Cell.null])).snd.2 = some "median=15.0" :=
by
  have hval : (if (((Col.mk "amount" Dtype.numeric
        [Cell.num 10, Cell.num 20, Cell.null]).cells.any
          fun x => !x.isNull) = true)
      then medianRat (ratsOf (Col.mk "amount" Dtype.numeric
        [Cell.num 10, Cell.num 20, Cell.null]).cells) else 0) = 15 := by
    rw [if_pos (by decide)]
    unfold medianRat
    rw [show List.insertionSort (· ≤ ·) (ratsOf (Col.mk "amount" Dtype.numeric
        [Cell.num 10, Cell.num 20, Cell.null]).cells) = [(10 : Rat), 20] from by decide]
    norm_num [List.getD]
  have happ := imputer_numeric_median (Col.mk "amount" Dtype.numeric
    [Cell.num 10, Cell.num 20, Cell.null]) rfl (by decide)
  refine ⟨rfl, by decide, happ, ?_, ?_⟩
  · rw [happ.1]
    dsimp only
    rw [hval]
    decide
  · rw [happ.1]
    dsimp only
    rw [hval]
    decide

/-! ### Email count monotonicity through the pipeline -/

theorem colStage1_object_cells {c : Col} (h : c.dtype = Dtype.object) :
    ∀ x ∈ (colStage1 c).fst.cells, strOrNull x = true := by
  intro x hx
  unfold colStage1 at hx
  rw [if_pos h] at hx
  dsimp only at hx
  obtain ⟨y, _, hyx⟩ := List.mem_map.mp hx
  rw [← hyx]
  unfold normCell1
  dsimp only
  split <;> rfl

theorem colStage2_cases (c : Col) :
    colStage2 c = (c, none) ∨ (colStage2 c).fst.dtype = Dtype.datetime := by
  unfold colStage2
  by_cases h : nameHint c.name = true
  · rw [if_pos h]
    dsimp only
    by_cases h0 : 0 < (c.cells.map parseTS).countP Option.isSome
    · rw [if_pos h0]
      exact Or.inr rfl
    · rw [if_neg h0]
      exact Or.inl rfl
  · rw [if_neg h]
    exact Or.inl rfl

theorem colPhase123_email_mono (c : Col) {b a : Nat}
    (h : (colPhase123 c).snd.2.2 = some (b, a)) : b ≤ a := by
  unfold colPhase123 at h
  dsimp only at h
  set c2 := (colStage2 (colStage1 c).fst).fst with hc2
  unfold colStage3 at h
  split at h
  · rename_i hcond
    simp only [Option.some_inj] at h
    have hb := congrArg Prod.fst h
    have ha := congrArg Prod.snd h
    dsimp only at hb ha
    subst hb
    subst ha
    have hsn : ∀ x ∈ c2.cells, strOrNull x = true := by
      rcases colStage2_cases (colStage1 c).fst with heq | hdt
      · have hc2e : c2 = (colStage1 c).fst := by rw [hc2, heq]
        have hobj : c.dtype = Dtype.object := by
          have h1 : c2.dtype = (colStage1 c).fst.dtype := by rw [hc2e]
          rw [colStage1_fst_dtype] at h1
          rw [← h1]
          exact hcond.1
        intro x hx
        rw [hc2e] at hx
        exact colStage1_object_cells hobj x hx
      · exfalso
        rw [← hc2] at hdt
        rw [hcond.1] at hdt
        cases hdt
    rw [List.countP_map]
    apply List.countP_mono_left
    intro x hx hv
    exact emailValid_lowerCell (hsn x hx) hv
  · cases h

theorem clean_changes_emails_eq (df : DF) (j : Nat)
    (hj : j < (clean_dataframe df).snd.column_changes.length) :
    ∃ hc : j < df.cols.length,
      ((clean_dataframe df).snd.column_changes[j]).emails_valid_before
          = ((colPhase123 (df.cols[j])).snd.2.2).map Prod.fst ∧
      ((clean_dataframe df).snd.column_changes[j]).emails_valid_after
          = ((colPhase123 (df.cols[j])).snd.2.2).map Prod.snd := by
  have hj' : j < (List.zipWith (fun p i => mkChanges p.snd i.snd)
      (df.cols.map colPhase123)
      (((dedupDF ⟨df.nrows,
        (df.cols.map colPhase123).map Prod.fst⟩).fst.cols).map colImpute)).length := hj
  have hp : j < (df.cols.map colPhase123).length := by
    rw [List.length_zipWith] at hj'
    omega
  have hcl : j < df.cols.length := by
    rw [List.length_map] at hp
    exact hp
  refine ⟨hcl, ?_, ?_⟩
  · show ((List.zipWith (fun p i => mkChanges p.snd i.snd)
        (df.cols.map colPhase123)
        (((dedupDF ⟨df.nrows,
          (df.cols.map colPhase123).map Prod.fst⟩).fst.cols).map
            colImpute))[j]).emails_valid_before = _
    rw [List.getElem_zipWith, List.getElem_map]
    rfl
  · show ((List.zipWith (fun p i => mkChanges p.snd i.snd)
        (df.cols.map colPhase123)
        (((dedupDF ⟨df.nrows,
          (df.cols.map colPhase123).map Prod.fst⟩).fst.cols).map
            colImpute))[j]).emails_valid_after = _
    rw [List.getElem_zipWith, List.getElem_map]
    rfl

/-- C10: whenever the audit records both email-validity counts for a
column, the count after lower-casing is at least the count before: the
email pattern accepts both cases, so lower-casing preserves matches. -/
theorem clean_emails_monotone (df : DF) :
    ∀ e ∈ (clean_dataframe df).snd.column_changes, ∀ b a : Nat,
      e.emails_valid_before = some b → e.emails_valid_after = some a →
        b ≤ a := by
  intro e he b a hb ha
  obtain ⟨j, hj, hje⟩ := List.mem_iff_getElem.mp he
  obtain ⟨hc, hbe, hae⟩ := clean_changes_emails_eq df j hj
  rw [hje] at hbe hae
  rw [hbe] at hb
  rw [hae] at ha
  obtain ⟨p, hp, hpf⟩ := Option.map_eq_some'.mp hb
  obtain ⟨p2, hp2, hps⟩ := Option.map_eq_some'.mp ha
  rw [hp] at hp2
  have hpp : p2 = p := Option.some_inj.mp hp2.symm
  rw [hpp] at hps
  have hpair : (colPhase123 (df.cols[j])).snd.2.2 = some (b, a) := by
    rw [hp]
    have : p = (b, a) := by
      apply Prod.ext
      · exact hpf
      · exact hps
    rw [this]
  exact colPhase123_email_mono _ hpair

/-- Witness for C10: a single upper-case valid address gives counts
`(1, 1)` and the inequality `1 ≤ 1`. -/
theorem clean_emails_monotone_witness :
    ColChanges.mk none none (some 1) (some 1) none none ∈
        (clean_dataframe (DF.mk 1 [Col.mk "email" Dtype.object
          [Cell.str "A@B.CO"]])).snd.column_changes ∧
    (ColChanges.mk none none (some 1) (some 1) none none).emails_valid_before
        = some 1 ∧
    (ColChanges.mk none none (some 1) (some 1) none none).emails_valid_after
        = some 1 ∧
    1 ≤ 1 :=
  ⟨by decide, rfl, rfl,
   clean_emails_monotone (DF.mk 1 [Col.mk "email" Dtype.object
       [Cell.str "A@B.CO"]])
     (ColChanges.mk none none (some 1) (some 1) none none)
     (by decide) 1 1 rfl rfl⟩

/-! ### Zero-row behaviour -/

theorem colStage1_empty {c : Col} (h : c.cells = []) : colStage1 c = (c, none) := by
  by_cases hd : c.dtype = Dtype.object
  · unfold colStage1
    rw [if_pos hd]
    dsimp only
    rw [h]
    have he : (⟨c.name, c.dtype, List.map normCell1 []⟩ : Col) = c := by
      show (⟨c.name, c.dtype, []⟩ : Col) = c
      rw [← h]
    rw [he]
    norm_num [countNulls]
  · unfold colStage1
    rw [if_neg hd]

theorem colStage2_empty {c : Col} (h : c.cells = []) : colStage2 c = (c, none) := by
  by_cases hn : nameHint c.name = true
  · unfold colStage2
    rw [if_pos hn]
    dsimp only
    rw [h]
    rw [if_neg (by rw [List.map_nil, List.countP_nil]; omega)]
  · unfold colStage2
    rw [if_neg hn]

theorem colStage3_empty {c : Col} (h : c.cells = []) :
    colStage3 c = (c, if c.dtype = Dtype.object ∧
        containsSub "email".data (lowerL c.name.data) = true
      then some (0, 0) else none) := by
  by_cases hc : c.dtype = Dtype.object ∧
      containsSub "email".data (lowerL c.name.data) = true
  · unfold colStage3
    rw [if_pos hc, if_pos hc]
    dsimp only
    rw [h]
    have he : (⟨c.name, c.dtype, List.map lowerCell []⟩ : Col) = c := by
      show (⟨c.name, c.dtype, []⟩ : Col) = c
      rw [← h]
    rw [he]
    rfl
  · unfold colStage3
    rw [if_neg hc, if_neg hc]

theorem colPhase123_empty {c : Col} (h : c.cells = []) :
    colPhase123 c = (c, none, none,
      if c.dtype = Dtype.object ∧
          containsSub "email".data (lowerL c.name.data) = true
        then some (0, 0) else none) := by
  unfold colPhase123
  rw [colStage1_empty h]
  dsimp only
  rw [colStage2_empty h]
  dsimp only
  rw [colStage3_empty h]

/-- C4 (amended): on a well-formed zero-row dataframe the audit has
`rows_before = rows_after = 0` and `duplicates_removed = 0`, and every
column's change entry is empty except object columns whose name contains
`"email"`, which still record `emails_valid_before = 0` and
`emails_valid_after = 0` (the Email Normalizer always emits both keys for
a matched column). -/
theorem clean_empty_df (df : DF) (hw : wellformed df) (h0 : df.nrows = 0) :
    (clean_dataframe df).snd.rows_before = 0 ∧
    (clean_dataframe df).snd.rows_after = 0 ∧
    (clean_dataframe df).snd.duplicates_removed = 0 ∧
    (clean_dataframe df).snd.column_changes = df.cols.map fun c =>
      if c.dtype = Dtype.object ∧
          containsSub "email".data (lowerL c.name.data) = true
        then ColChanges.mk none none (some 0) (some 0) none none
        else emptyChanges := by
  have hcell : ∀ c ∈ df.cols, c.cells = [] := by
    intro c hc
    have := hw.1 c hc
    rw [h0] at this
    exact List.length_eq_zero.mp this
  have hphase : df.cols.map colPhase123 = df.cols.map fun c =>
      (c, none, none,
        if c.dtype = Dtype.object ∧
            containsSub "email".data (lowerL c.name.data) = true
          then some ((0 : Nat), (0 : Nat)) else none) :=
    List.map_congr_left fun c hc => colPhase123_empty (hcell c hc)
  have hfst : (df.cols.map colPhase123).map Prod.fst = df.cols := by
    rw [hphase, List.map_map]
    exact List.map_id' _
  have hkeys : dfKeys ⟨df.nrows, (df.cols.map colPhase123).map Prod.fst⟩ = [] := by
    unfold dfKeys rowsWith
    dsimp only
    rw [h0]
    rfl
  have hmask : dupMask [] (dfKeys ⟨df.nrows,
      (df.cols.map colPhase123).map Prod.fst⟩) = [] := by
    rw [hkeys]
    rfl
  have hdcols : (dedupDF ⟨df.nrows,
      (df.cols.map colPhase123).map Prod.fst⟩).fst.cols = df.cols := by
    show ((df.cols.map colPhase123).map Prod.fst).map
        (fun c => ⟨c.name, c.dtype, applyMask (dupMask [] (dfKeys ⟨df.nrows,
          (df.cols.map colPhase123).map Prod.fst⟩)) c.cells⟩) = df.cols
    rw [hmask, hfst]
    have hstep : df.cols.map
        (fun c => (⟨c.name, c.dtype, applyMask [] c.cells⟩ : Col))
        = df.cols.map fun c => c := by
      apply List.map_congr_left
      intro c hc
      rw [applyMask_nil]
      show (⟨c.name, c.dtype, []⟩ : Col) = c
      rw [← hcell c hc]
    rw [hstep]
    exact List.map_id' _
  refine ⟨h0, ?_, ?_, ?_⟩
  · show countFalse (dupMask [] (dfKeys ⟨df.nrows,
        (df.cols.map colPhase123).map Prod.fst⟩)) = 0
    rw [hmask]
    rfl
  · show (if 0 < df.nrows - countFalse (dupMask [] (dfKeys ⟨df.nrows,
        (df.cols.map colPhase123).map Prod.fst⟩)) then _ else 0) = 0
    rw [hmask, h0]
    rfl
  · show List.zipWith (fun p i => mkChanges p.snd i.snd)
        (df.cols.map colPhase123)
        ((dedupDF ⟨df.nrows,
          (df.cols.map colPhase123).map Prod.fst⟩).fst.cols.map colImpute) = _
    rw [hdcols, hphase]
    have himp : df.cols.map colImpute = df.cols.map fun c => (c, none, none) :=
      List.map_congr_left fun c hc => colImpute_skip (by
        unfold countNulls
        rw [hcell c hc, List.countP_nil])
    rw [himp, List.zipWith_map, List.zipWith_same]
    apply List.map_congr_left
    intro c hc
    by_cases hcond : c.dtype = Dtype.object ∧
        containsSub "email".data (lowerL c.name.data) = true
    · rw [if_pos hcond, if_pos hcond]
      rfl
    · rw [if_neg hcond, if_neg hcond]
      rfl

/-- Counterexample to C4 as stated: a well-formed zero-row dataframe with
an object column named `email` does get change keys — both email counts
are recorded as zero — so "no change keys at all" fails. -/
theorem clean_empty_email_counterexample :
    (DF.mk 0 [Col.mk "email" Dtype.object []]).nrows = 0 ∧
    wellformed (DF.mk 0 [Col.mk "email" Dtype.object []]) ∧
    (clean_dataframe (DF.mk 0
        [Col.mk "email" Dtype.object []])).snd.column_changes
      = [ColChanges.mk none none (some 0) (some 0) none none] ∧
    (clean_dataframe (DF.mk 0
        [Col.mk "email" Dtype.object []])).snd.column_changes
      ≠ [emptyChanges] := by
  refine ⟨rfl, by decide, by decide, by decide⟩

/-- Witness for the amended C4 on a zero-row dataframe with one email
object column and one numeric column. -/
theorem clean_empty_df_witness :
    wellformed (DF.mk 0 [Col.mk "email" Dtype.object [],
      Col.mk "n" Dtype.numeric []]) ∧
    (DF.mk 0 [Col.mk "email" Dtype.object [],
      Col.mk "n" Dtype.numeric []]).nrows = 0 ∧
    ((clean_dataframe (DF.mk 0 [Col.mk "email" Dtype.object [],
        Col.mk "n" Dtype.numeric []])).snd.rows_before = 0 ∧
      (clean_dataframe (DF.mk 0 [Col.mk "email" Dtype.object [],
        Col.mk "n" Dtype.numeric []])).snd.rows_after = 0 ∧
      (clean_dataframe (DF.mk 0 [Col.mk "email" Dtype.object [],
        Col.mk "n" Dtype.numeric []])).snd.duplicates_removed = 0 ∧
      (clean_dataframe (DF.mk 0 [Col.mk "email" Dtype.object [],
        Col.mk "n" Dtype.numeric []])).snd.column_changes
        = (DF.mk 0 [Col.mk "email" Dtype.object [],
            Col.mk "n" Dtype.numeric []]).cols.map fun c =>
          if c.dtype = Dtype.object ∧
              containsSub "email".data (lowerL c.name.data) = true
            then ColChanges.mk none none (some 0) (some 0) none none
            else emptyChanges) :=
  ⟨by decide, rfl,
   clean_empty_df (DF.mk 0 [Col.mk "email" Dtype.object [],
     Col.mk "n" Dtype.numeric []]) (by decide) rfl⟩

/-! ### Second-run analysis: basic lemmas -/

theorem colStage1_non_object {c : Col} (h : ¬c.dtype = Dtype.object) :
    colStage1 c = (c, none) := by
  unfold colStage1
  rw [if_neg h]

theorem colStage3_non_email {c : Col}
    (h : ¬(c.dtype = Dtype.object ∧
      containsSub "email".data (lowerL c.name.data) = true)) :
    colStage3 c = (c, none) := by
  unfold colStage3
  rw [if_neg h]

theorem colStage3_email {c : Col}
    (h : c.dtype = Dtype.object ∧
      containsSub "email".data (lowerL c.name.data) = true) :
    (colStage3 c).fst = ⟨c.name, c.dtype, c.cells.map lowerCell⟩ := by
  unfold colStage3
  rw [if_pos h]

theorem countNulls_eq_zero {l : List Cell} :
    countNulls l = 0 ↔ ∀ x ∈ l, x ≠ Cell.null := by
  unfold countNulls
  rw [List.countP_eq_zero]
  constructor
  · intro h x hx he
    exact h x hx (by rw [he]; rfl)
  · intro h x hx hn
    exact h x hx ((isNull_iff x).mp hn)

theorem colImpute_none_missing {c : Col} (h : (colImpute c).snd.1 = none) :
    countNulls c.cells = 0 := by
  by_cases hm : countNulls c.cells = 0
  · exact hm
  · exfalso
    by_cases hn : c.dtype = Dtype.numeric
    · rw [colImpute_num hm hn] at h
      cases h
    · by_cases hd : c.dtype = Dtype.datetime
      · rw [colImpute_dt hm hd] at h
        cases h
      · rw [colImpute_other hm hn hd] at h
        cases h

theorem dupMask_of_nodup : ∀ (ks seen : List (List Cell)), ks.Nodup →
    (∀ k ∈ ks, k ∉ seen) → dupMask seen ks = List.replicate ks.length false := by
  intro ks
  induction ks with
  | nil => intro seen _ _; rfl
  | cons k t ih =>
      intro seen hnd hns
      unfold dupMask
      rw [List.length_cons, List.replicate_succ]
      rw [decide_eq_false (hns k (List.mem_cons_self _ _))]
      refine congrArg (false :: ·) ?_
      rw [List.nodup_cons] at hnd
      refine ih (k :: seen) hnd.2 ?_
      intro x hx
      intro hc
      cases hc with
      | head => exact hnd.1 hx
      | tail _ hs => exact hns x (List.mem_cons_of_mem _ hx) hs

theorem countFalse_replicate (n : Nat) :
    countFalse (List.replicate n false) = n := by
  induction n with
  | zero => rfl
  | succ m ih =>
      rw [List.replicate_succ, countFalse_cons, ih]
      rfl

theorem tsCells_roundtrip {l : List Cell} (h : ∀ x ∈ l, ∃ t, x = Cell.ts t) :
    (l.map parseTS).map (fun o => match o with
      | some t => Cell.ts t
      | none => Cell.null) = l := by
  rw [List.map_map]
  have : ∀ x ∈ l, ((fun o => match o with
      | some t => Cell.ts t
      | none => Cell.null) ∘ parseTS) x = id x := by
    intro x hx
    obtain ⟨t, ht⟩ := h x hx
    rw [ht]
    rfl
  rw [List.map_congr_left this, List.map_id]

theorem colStage2_shape (c : Col) :
    colStage2 c = (c, none) ∨
    ∃ conv, colStage2 c = (⟨c.name, Dtype.datetime,
        (c.cells.map parseTS).map fun o => match o with
          | some t => Cell.ts t
          | none => Cell.null⟩, some conv) := by
  unfold colStage2
  by_cases h : nameHint c.name = true
  · rw [if_pos h]
    dsimp only
    by_cases h0 : 0 < (c.cells.map parseTS).countP Option.isSome
    · rw [if_pos h0]
      exact Or.inr ⟨_, rfl⟩
    · rw [if_neg h0]
      exact Or.inl rfl
  · rw [if_neg h]
    exact Or.inl rfl

theorem colStage2_hint_none {c : Col} (hn : nameHint c.name = true)
    (h : (colStage2 c).snd = none) :
    ∀ x ∈ c.cells, parseTS x = none := by
  have h0 : (c.cells.map parseTS).countP Option.isSome = 0 := by
    by_contra hc
    unfold colStage2 at h
    rw [if_pos hn] at h
    dsimp only at h
    rw [if_pos (by omega)] at h
    cases h
  intro x hx
  have := List.countP_eq_zero.mp h0 (parseTS x) (List.mem_map_of_mem parseTS hx)
  cases hp : parseTS x with
  | none => rfl
  | some t => rw [hp] at this; exact absurd rfl this

theorem colStage1_object_form {c : Col} (hd : c.dtype = Dtype.object) :
    ∀ x ∈ (colStage1 c).fst.cells,
      x = Cell.null ∨ ∃ s, x = Cell.str s ∧ stripS s = s ∧ s ≠ "" := by
  intro x hx
  unfold colStage1 at hx
  rw [if_pos hd] at hx
  dsimp only at hx
  obtain ⟨y, _, hyx⟩ := List.mem_map.mp hx
  unfold normCell1 at hyx
  dsimp only at hyx
  by_cases he : stripS (pyStr y) = ""
  · rw [if_pos he] at hyx
    exact Or.inl hyx.symm
  · rw [if_neg he] at hyx
    exact Or.inr ⟨stripS (pyStr y), hyx.symm, stripS_idem (pyStr y), he⟩

theorem lowerS_idem (s : String) : lowerS (lowerS s) = lowerS s := by
  unfold lowerS
  exact congrArg String.mk (lowerL_idem s.data)

theorem colPhase123_invariants (c : Col)
    (hok : ∀ x ∈ c.cells, cellOkB c.dtype x = true) :
    ((colPhase123 c).fst.dtype = Dtype.object →
      ∀ x ∈ (colPhase123 c).fst.cells,
        x = Cell.null ∨ ∃ s, x = Cell.str s ∧ stripS s = s ∧ s ≠ "" ∧
          (emailNameB (colPhase123 c).fst = true → lowerS s = s)) ∧
    ((colPhase123 c).fst.dtype = Dtype.object →
      nameHint (colPhase123 c).fst.name = true →
      ∀ x ∈ (colPhase123 c).fst.cells, parseTS x = none) ∧
    ((colPhase123 c).fst.dtype = Dtype.numeric →
      nameHint (colPhase123 c).fst.name = true →
      ∀ x ∈ (colPhase123 c).fst.cells, x = Cell.null) ∧
    ((colPhase123 c).fst.dtype = Dtype.datetime →
      ∀ x ∈ (colPhase123 c).fst.cells, x = Cell.null ∨ ∃ t, x = Cell.ts t) := by
  have ha : (colPhase123 c).fst
      = (colStage3 (colStage2 (colStage1 c).fst).fst).fst := rfl
  set c1 := (colStage1 c).fst with hc1
  set c2 := (colStage2 c1).fst with hc2v
  have hadt : (colPhase123 c).fst.dtype = c2.dtype := by
    rw [ha]
    exact colStage3_fst_dtype c2
  have hanm : (colPhase123 c).fst.name = c2.name := by
    rw [ha]
    exact colStage3_fst_name c2
  have hc1dt : c1.dtype = c.dtype := colStage1_fst_dtype c
  have hc2nm : c2.name = c1.name := colStage2_fst_name c1
  have hc1nm : c1.name = c.name := colStage1_fst_name c
  refine ⟨?_, ?_, ?_, ?_⟩
  · -- object form
    intro hobj x hx
    have hc2obj : c2.dtype = Dtype.object := by rw [← hadt]; exact hobj
    have hc2eq : c2 = c1 := by
      rcases colStage2_shape c1 with heq | ⟨conv, heq⟩
      · rw [hc2v, heq]
      · exfalso
        rw [hc2v, heq] at hc2obj
        cases hc2obj
    have hcobj : c.dtype = Dtype.object := by
      rw [← hc1dt, ← hc2eq]
      exact hc2obj
    have hform := colStage1_object_form hcobj
    by_cases h3 : c2.dtype = Dtype.object ∧
        containsSub "email".data (lowerL c2.name.data) = true
    · rw [ha, colStage3_email h3] at hx
      dsimp only at hx
      obtain ⟨y, hy, hyx⟩ := List.mem_map.mp hx
      rw [hc2eq] at hy
      rcases hform y hy with hn | ⟨s, hs, hss, hne⟩
      · left
        rw [← hyx, hn]
        rfl
      · right
        refine ⟨lowerS s, ?_, ?_, lowerS_ne_empty hne, fun _ => lowerS_idem s⟩
        · rw [← hyx, hs]
          rfl
        · rw [stripS_lowerS, hss]
    · rw [ha, colStage3_non_email h3] at hx
      dsimp only at hx
      rw [hc2eq] at hx
      rcases hform x hx with hn | ⟨s, hs, hss, hne⟩
      · exact Or.inl hn
      · refine Or.inr ⟨s, hs, hss, hne, ?_⟩
        intro hemail
        exfalso
        apply h3
        refine ⟨hc2obj, ?_⟩
        unfold emailNameB at hemail
        rw [hanm] at hemail
        exact hemail
  · -- object, temporal hint: nothing parses
    intro hobj hhint x hx
    have hc2obj : c2.dtype = Dtype.object := by rw [← hadt]; exact hobj
    have hc2eq : colStage2 c1 = (c1, none) := by
      rcases colStage2_shape c1 with heq | ⟨conv, heq⟩
      · exact heq
      · exfalso
        rw [hc2v, heq] at hc2obj
        cases hc2obj
    have hc2c1 : c2 = c1 := by rw [hc2v, hc2eq]
    have hhint1 : nameHint c1.name = true := by
      rw [← hc2nm, ← hanm]
      exact hhint
    have hnone : ∀ y ∈ c1.cells, parseTS y = none :=
      colStage2_hint_none hhint1 (by rw [hc2eq])
    by_cases h3 : c2.dtype = Dtype.object ∧
        containsSub "email".data (lowerL c2.name.data) = true
    · rw [ha, colStage3_email h3] at hx
      dsimp only at hx
      obtain ⟨y, hy, hyx⟩ := List.mem_map.mp hx
      rw [hc2c1] at hy
      rw [← hyx]
      exact parseTS_lowerCell (hnone y hy)
    · rw [ha, colStage3_non_email h3] at hx
      dsimp only at hx
      rw [hc2c1] at hx
      exact hnone x hx
  · -- numeric with temporal hint: all cells null
    intro hnum hhint x hx
    have hc2num : c2.dtype = Dtype.numeric := by rw [← hadt]; exact hnum
    have hc2eq : colStage2 c1 = (c1, none) := by
      rcases colStage2_shape c1 with heq | ⟨conv, heq⟩
      · exact heq
      · exfalso
        rw [hc2v, heq] at hc2num
        cases hc2num
    have hc2c1 : c2 = c1 := by rw [hc2v, hc2eq]
    have hcnum : c.dtype = Dtype.numeric := by
      rw [← hc1dt, ← hc2c1]
      exact hc2num
    have hc1c : c1 = c := by
      rw [hc1]
      rw [colStage1_non_object (by rw [hcnum]; intro hc; cases hc)]
    have h3 : ¬(c2.dtype = Dtype.object ∧
        containsSub "email".data (lowerL c2.name.data) = true) := by
      intro hc
      rw [hc2num] at hc
      cases hc.1
    rw [ha, colStage3_non_email h3] at hx
    dsimp only at hx
    rw [hc2c1, hc1c] at hx
    have hhint1 : nameHint c1.name = true := by
      rw [← hc2nm, ← hanm]
      exact hhint
    have hnone := colStage2_hint_none hhint1 (by rw [hc2eq]) x (by rw [← hc1c] at hx; exact hx)
    have hokx := hok x hx
    rw [hcnum] at hokx
    cases x with
    | null => rfl
    | num q => exfalso; rw [show parseTS (Cell.num q) = some q.floor from rfl] at hnone; cases hnone
    | str s => exfalso; cases hokx
    | ts t => exfalso; cases hokx
  · -- datetime: timestamps or null
    intro hdt x hx
    have hc2dt : c2.dtype = Dtype.datetime := by rw [← hadt]; exact hdt
    have h3 : ¬(c2.dtype = Dtype.object ∧
        containsSub "email".data (lowerL c2.name.data) = true) := by
      intro hc
      rw [hc2dt] at hc
      cases hc.1
    rw [ha, colStage3_non_email h3] at hx
    dsimp only at hx
    rcases colStage2_shape c1 with heq | ⟨conv, heq⟩
    · have hc2c1 : c2 = c1 := by rw [hc2v, heq]
      have hcdt : c.dtype = Dtype.datetime := by
        rw [← hc1dt, ← hc2c1]
        exact hc2dt
      have hc1c : c1 = c := by
        rw [hc1]
        rw [colStage1_non_object (by rw [hcdt]; intro hc; cases hc)]
      rw [hc2c1, hc1c] at hx
      have hokx := hok x hx
      rw [hcdt] at hokx
      cases x with
      | null => exact Or.inl rfl
      | ts t => exact Or.inr ⟨t, rfl⟩
      | num q => exact absurd hokx (by intro hc; cases hc)
      | str s => exact absurd hokx (by intro hc; cases hc)
    · have : c2.cells = (c1.cells.map parseTS).map fun o => match o with
          | some t => Cell.ts t
          | none => Cell.null := by
        rw [hc2v, heq]
      rw [this] at hx
      obtain ⟨o, _, hox⟩ := List.mem_map.mp hx
      cases o with
      | none => exact Or.inl hox.symm
      | some t => exact Or.inr ⟨t, hox.symm⟩

theorem colPhase123_id_of_cleanCol {b : Col} (h : cleanCol b) :
    (colPhase123 b).fst = b := by
  obtain ⟨h1, h2, h3, h4⟩ := h
  have hs1 : (colStage1 b).fst = b := by
    by_cases hd : b.dtype = Dtype.object
    · unfold colStage1
      rw [if_pos hd]
      dsimp only
      have hmap : b.cells.map normCell1 = b.cells := by
        have hcg : ∀ x ∈ b.cells, normCell1 x = id x := by
          intro x hx
          obtain ⟨s, hxs, hss, hne, _⟩ := h1 hd x hx
          rw [hxs]
          unfold normCell1
          dsimp only [pyStr]
          rw [hss, if_neg hne]
          rfl
        rw [List.map_congr_left hcg, List.map_id]
      rw [hmap]
    · rw [colStage1_non_object hd]
  have hs2 : (colStage2 b).fst = b := by
    by_cases hn : nameHint b.name = true
    · by_cases hd : b.dtype = Dtype.object
      · have h0 : (b.cells.map parseTS).countP Option.isSome = 0 := by
          rw [List.countP_eq_zero]
          intro o ho
          obtain ⟨x, hx, hox⟩ := List.mem_map.mp ho
          rw [← hox, h2 hd hn x hx]
          intro hc
          cases hc
        unfold colStage2
        rw [if_pos hn]
        dsimp only
        rw [if_neg (by omega)]
      · by_cases hdn : b.dtype = Dtype.numeric
        · have h0 : (b.cells.map parseTS).countP Option.isSome = 0 := by
            rw [h3 hdn hn]
            rfl
          unfold colStage2
          rw [if_pos hn]
          dsimp only
          rw [if_neg (by omega)]
        · have hdt : b.dtype = Dtype.datetime := by
            cases hbd : b.dtype
            · exact absurd hbd hd
            · exact absurd hbd hdn
            · rfl
          unfold colStage2
          rw [if_pos hn]
          dsimp only
          by_cases h0 : 0 < (b.cells.map parseTS).countP Option.isSome
          · rw [if_pos h0]
            dsimp only
            rw [tsCells_roundtrip (h4 hdt), ← hdt]
          · rw [if_neg h0]
    · unfold colStage2
      rw [if_neg hn]
  have hs3 : (colStage3 b).fst = b := by
    by_cases h3c : b.dtype = Dtype.object ∧
        containsSub "email".data (lowerL b.name.data) = true
    · rw [colStage3_email h3c]
      have hmap : b.cells.map lowerCell = b.cells := by
        have hcg : ∀ x ∈ b.cells, lowerCell x = id x := by
          intro x hx
          obtain ⟨s, hxs, _, _, hlow⟩ := h1 h3c.1 x hx
          rw [hxs]
          show Cell.str (lowerS s) = Cell.str s
          rw [hlow h3c.2]
        rw [List.map_congr_left hcg, List.map_id]
      rw [hmap]
    · rw [colStage3_non_email h3c]
  show (colStage3 (colStage2 (colStage1 b).fst).fst).fst = b
  rw [hs1, hs2, hs3]

/-! ### Second-run analysis: assembly -/

theorem clean_changes_length (df : DF) :
    (clean_dataframe df).snd.column_changes.length = df.cols.length := by
  show (List.zipWith (fun p i => mkChanges p.snd i.snd)
      (df.cols.map colPhase123)
      ((dedupDF ⟨df.nrows,
        (df.cols.map colPhase123).map Prod.fst⟩).fst.cols.map colImpute)).length = _
  rw [List.length_zipWith, List.length_map]
  have h2 : ((dedupDF ⟨df.nrows,
      (df.cols.map colPhase123).map Prod.fst⟩).fst.cols.map colImpute).length
      = df.cols.length := by
    rw [List.length_map]
    show (((df.cols.map colPhase123).map Prod.fst).map _).length = _
    rw [List.length_map, List.length_map, List.length_map]
  rw [h2]
  exact min_self _

theorem dfB_cols_length (df : DF) :
    (dedupDF ⟨df.nrows,
      (df.cols.map colPhase123).map Prod.fst⟩).fst.cols.length
      = df.cols.length := by
  show (((df.cols.map colPhase123).map Prod.fst).map _).length = _
  rw [List.length_map, List.length_map, List.length_map]

theorem clean_changes_imputed_eq (df : DF) (j : Nat)
    (hj : j < (clean_dataframe df).snd.column_changes.length) :
    ∃ hi : j < (dedupDF ⟨df.nrows,
        (df.cols.map colPhase123).map Prod.fst⟩).fst.cols.length,
      ((clean_dataframe df).snd.column_changes[j]).imputed_missing
        = (colImpute ((dedupDF ⟨df.nrows,
            (df.cols.map colPhase123).map Prod.fst⟩).fst.cols[j])).snd.1 := by
  have hi : j < (dedupDF ⟨df.nrows,
      (df.cols.map colPhase123).map Prod.fst⟩).fst.cols.length := by
    rw [dfB_cols_length]
    rw [clean_changes_length] at hj
    exact hj
  refine ⟨hi, ?_⟩
  show ((List.zipWith (fun p i => mkChanges p.snd i.snd)
      (df.cols.map colPhase123)
      ((dedupDF ⟨df.nrows,
        (df.cols.map colPhase123).map Prod.fst⟩).fst.cols.map
          colImpute))[j]).imputed_missing = _
  rw [List.getElem_zipWith, List.getElem_map, List.getElem_map]
  rfl

theorem dfB_missing_zero (df : DF)
    (hni : noImputation (clean_dataframe df).snd) :
    ∀ b ∈ (dedupDF ⟨df.nrows,
        (df.cols.map colPhase123).map Prod.fst⟩).fst.cols,
      countNulls b.cells = 0 := by
  intro b hb
  obtain ⟨j, hjB, hjb⟩ := List.mem_iff_getElem.mp hb
  have hj : j < (clean_dataframe df).snd.column_changes.length := by
    rw [clean_changes_length]
    rw [dfB_cols_length] at hjB
    exact hjB
  obtain ⟨hi, heq⟩ := clean_changes_imputed_eq df j hj
  have hmem := List.getElem_mem hj
  have hnone := hni _ hmem
  rw [heq] at hnone
  have h0 := colImpute_none_missing hnone
  have hr : ((dedupDF ⟨df.nrows,
      (df.cols.map colPhase123).map Prod.fst⟩).fst.cols[j]) = b := hjb
  rw [hr] at h0
  exact h0

theorem clean_fst_eq (df : DF)
    (h : ∀ b ∈ (dedupDF ⟨df.nrows,
        (df.cols.map colPhase123).map Prod.fst⟩).fst.cols,
      countNulls b.cells = 0) :
    (clean_dataframe df).fst
      = (dedupDF ⟨df.nrows, (df.cols.map colPhase123).map Prod.fst⟩).fst := by
  set B := (dedupDF ⟨df.nrows,
    (df.cols.map colPhase123).map Prod.fst⟩).fst with hBdef
  have hcg : ∀ b ∈ B.cols, (Prod.fst ∘ colImpute) b = (fun x => x) b := by
    intro b hb
    show (colImpute b).fst = b
    rw [colImpute_skip (h b hb)]
  have hc : (B.cols.map colImpute).map Prod.fst = B.cols := by
    rw [List.map_map, List.map_congr_left hcg]
    exact List.map_id' _
  show (⟨B.nrows, (B.cols.map colImpute).map Prod.fst⟩ : DF) = B
  rw [hc]

theorem dfA_wf_lengths (df : DF)
    (hlen : ∀ c ∈ df.cols, c.cells.length = df.nrows) :
    ∀ a ∈ ((df.cols.map colPhase123).map Prod.fst), a.cells.length = df.nrows := by
  intro a ha
  obtain ⟨p, hp, hpa⟩ := List.mem_map.mp ha
  obtain ⟨c0, hc0, hcp⟩ := List.mem_map.mp hp
  rw [← hpa, ← hcp]
  show (colPhase123 c0).fst.cells.length = df.nrows
  rw [colPhase123_fst_len]
  exact hlen c0 hc0

theorem dfB_keys_nodup (df : DF)
    (hlen : ∀ c ∈ df.cols, c.cells.length = df.nrows) :
    (dfKeys (dedupDF ⟨df.nrows,
      (df.cols.map colPhase123).map Prod.fst⟩).fst).Nodup := by
  have hwA : ∀ a ∈ (DF.mk df.nrows
      ((df.cols.map colPhase123).map Prod.fst)).cols,
      a.cells.length = (DF.mk df.nrows
        ((df.cols.map colPhase123).map Prod.fst)).nrows :=
    dfA_wf_lengths df hlen
  have hrows := dedupDF_rows ⟨df.nrows,
    (df.cols.map colPhase123).map Prod.fst⟩ hwA
  have hdtypes : (dedupDF ⟨df.nrows,
      (df.cols.map colPhase123).map Prod.fst⟩).fst.cols.map Col.dtype
      = ((df.cols.map colPhase123).map Prod.fst).map Col.dtype := by
    show (((df.cols.map colPhase123).map Prod.fst).map _).map Col.dtype = _
    rw [List.map_map]
    rfl
  rw [dfKeys_eq_map_rows, hrows, hdtypes]
  exact (firstOcc_nodup _ _ _).1

theorem dfB_cleanCol (df : DF) (hw : wellformed df) :
    ∀ b ∈ (dedupDF ⟨df.nrows,
        (df.cols.map colPhase123).map Prod.fst⟩).fst.cols,
      countNulls b.cells = 0 → cleanCol b := by
  intro b hb h0
  have hb' : b ∈ ((df.cols.map colPhase123).map Prod.fst).map
      (fun c => (⟨c.name, c.dtype, applyMask (dupMask [] (dfKeys ⟨df.nrows,
        (df.cols.map colPhase123).map Prod.fst⟩)) c.cells⟩ : Col)) := hb
  obtain ⟨a, ha, hab⟩ := List.mem_map.mp hb'
  obtain ⟨p, hp, hpa⟩ := List.mem_map.mp ha
  obtain ⟨c0, hc0, hcp⟩ := List.mem_map.mp hp
  have haphase : a = (colPhase123 c0).fst := by rw [← hpa, ← hcp]
  have inv := colPhase123_invariants c0 (hw.2.1 c0 hc0)
  rw [← haphase] at inv
  have hbname : b.name = a.name := by rw [← hab]
  have hbdt : b.dtype = a.dtype := by rw [← hab]
  have hbsub : ∀ x ∈ b.cells, x ∈ a.cells := by
    intro x hx
    rw [← hab] at hx
    exact applyMask_mem hx
  have hnonull : ∀ x ∈ b.cells, x ≠ Cell.null := countNulls_eq_zero.mp h0
  have hemail : emailNameB b = emailNameB a := by
    unfold emailNameB
    rw [hbname]
  refine ⟨?_, ?_, ?_, ?_⟩
  · intro hdob x hx
    rcases inv.1 (by rw [← hbdt]; exact hdob) x (hbsub x hx) with
      hn | ⟨s, hxs, hss, hne, hlow⟩
    · exact absurd hn (hnonull x hx)
    · exact ⟨s, hxs, hss, hne, fun he => hlow (by rw [← hemail]; exact he)⟩
  · intro hdob hhint x hx
    exact inv.2.1 (by rw [← hbdt]; exact hdob)
      (by rw [← hbname]; exact hhint) x (hbsub x hx)
  · intro hdnum hhint
    have hall := inv.2.2.1 (by rw [← hbdt]; exact hdnum)
      (by rw [← hbname]; exact hhint)
    rw [List.eq_nil_iff_forall_not_mem]
    intro x hx
    exact (hnonull x hx) (hall x (hbsub x hx))
  · intro hddt x hx
    rcases inv.2.2.2 (by rw [← hbdt]; exact hddt) x (hbsub x hx) with hn | ht
    · exact absurd hn (hnonull x hx)
    · exact ht

/-- C5 (amended): when the first run of `clean_dataframe` imputed no
values (no column recorded `imputed_missing`), a second run on the
cleaned output removes no duplicates and leaves the row count unchanged.
Without that proviso the claim fails: imputation can merge rows that
differed only in their null positions, and the second run's Deduplicator
then removes them. -/
theorem clean_second_run_no_dedup (df : DF) (hw : wellformed df)
    (hni : noImputation (clean_dataframe df).snd) :
    (clean_dataframe (clean_dataframe df).fst).snd.duplicates_removed = 0 ∧
    (clean_dataframe (clean_dataframe df).fst).snd.rows_after
      = (clean_dataframe (clean_dataframe df).fst).snd.rows_before := by
  have hmiss := dfB_missing_zero df hni
  have hdf1 : (clean_dataframe df).fst
      = (dedupDF ⟨df.nrows, (df.cols.map colPhase123).map Prod.fst⟩).fst :=
    clean_fst_eq df hmiss
  have hclean : ∀ b ∈ (clean_dataframe df).fst.cols, cleanCol b := by
    rw [hdf1]
    intro b hb
    exact dfB_cleanCol df hw b hb (hmiss b hb)
  have hA2 : ((clean_dataframe df).fst.cols.map colPhase123).map Prod.fst
      = (clean_dataframe df).fst.cols := by
    rw [List.map_map]
    have hcg : ∀ b ∈ (clean_dataframe df).fst.cols,
        (Prod.fst ∘ colPhase123) b = (fun x => x) b := by
      intro b hb
      show (colPhase123 b).fst = b
      exact colPhase123_id_of_cleanCol (hclean b hb)
    rw [List.map_congr_left hcg]
    exact List.map_id' _
  have hA2df : (DF.mk (clean_dataframe df).fst.nrows
      (((clean_dataframe df).fst.cols.map colPhase123).map Prod.fst))
      = (clean_dataframe df).fst := by
    rw [hA2]
  have hnodup : (dfKeys (DF.mk (clean_dataframe df).fst.nrows
      (((clean_dataframe df).fst.cols.map colPhase123).map Prod.fst))).Nodup := by
    rw [hA2df, hdf1]
    exact dfB_keys_nodup df hw.1
  have hmask : dupMask [] (dfKeys (DF.mk (clean_dataframe df).fst.nrows
      (((clean_dataframe df).fst.cols.map colPhase123).map Prod.fst)))
      = List.replicate (dfKeys (DF.mk (clean_dataframe df).fst.nrows
        (((clean_dataframe df).fst.cols.map colPhase123).map
          Prod.fst))).length false :=
    dupMask_of_nodup _ [] hnodup (fun k _ hk => by cases hk)
  have hcf : countFalse (dupMask [] (dfKeys (DF.mk (clean_dataframe df).fst.nrows
      (((clean_dataframe df).fst.cols.map colPhase123).map Prod.fst))))
      = (clean_dataframe df).fst.nrows := by
    rw [hmask, countFalse_replicate]
    exact dfKeys_length _
  constructor
  · show (if 0 < (clean_dataframe df).fst.nrows
        - countFalse (dupMask [] (dfKeys (DF.mk (clean_dataframe df).fst.nrows
          (((clean_dataframe df).fst.cols.map colPhase123).map Prod.fst))))
      then (clean_dataframe df).fst.nrows
        - countFalse (dupMask [] (dfKeys (DF.mk (clean_dataframe df).fst.nrows
          (((clean_dataframe df).fst.cols.map colPhase123).map Prod.fst))))
      else 0) = 0
    rw [hcf, Nat.sub_self]
    rfl
  · show countFalse (dupMask [] (dfKeys (DF.mk (clean_dataframe df).fst.nrows
        (((clean_dataframe df).fst.cols.map colPhase123).map Prod.fst))))
      = (clean_dataframe df).fst.nrows
    exact hcf

/-- Counterexample to C5 as stated: on the dataframe with one object
column holding `"a"` and `" "`, the first run turns `" "` into null and
imputes it back to `"a"`, merging the two rows' content; the second run
then finds a duplicate, removes it, and changes the row count. -/
theorem clean_not_idempotent_counterexample :
    wellformed (DF.mk 2 [Col.mk "c" Dtype.object
      [Cell.str "a", Cell.str " "]]) ∧
    (clean_dataframe (clean_dataframe (DF.mk 2 [Col.mk "c" Dtype.object
      [Cell.str "a", Cell.str " "]])).fst).snd.duplicates_removed = 1 ∧
    ¬((clean_dataframe (clean_dataframe (DF.mk 2 [Col.mk "c" Dtype.object
        [Cell.str "a", Cell.str " "]])).fst).snd.rows_after
      = (clean_dataframe (clean_dataframe (DF.mk 2 [Col.mk "c" Dtype.object
        [Cell.str "a", Cell.str " "]])).fst).snd.rows_before) :=
  ⟨by decide, by decide, by decide⟩

/-- Witness for the amended C5 at a dataframe whose first run imputes
nothing. -/
theorem clean_second_run_no_dedup_witness :
    wellformed (DF.mk 2 [Col.mk "name" Dtype.object
      [Cell.str "Bob", Cell.str "Eve"]]) ∧
    noImputation (clean_dataframe (DF.mk 2 [Col.mk "name" Dtype.object
      [Cell.str "Bob", Cell.str "Eve"]])).snd ∧
    ((clean_dataframe (clean_dataframe (DF.mk 2 [Col.mk "name" Dtype.object
        [Cell.str "Bob", Cell.str "Eve"]])).fst).snd.duplicates_removed = 0 ∧
      (clean_dataframe (clean_dataframe (DF.mk 2 [Col.mk "name" Dtype.object
        [Cell.str "Bob", Cell.str "Eve"]])).fst).snd.rows_after
        = (clean_dataframe (clean_dataframe (DF.mk 2 [Col.mk "name" Dtype.object
          [Cell.str "Bob", Cell.str "Eve"]])).fst).snd.rows_before) :=
  ⟨by decide, by decide,
   clean_second_run_no_dedup (DF.mk 2 [Col.mk "name" Dtype.object
     [Cell.str "Bob", Cell.str "Eve"]]) (by decide) (by decide)⟩
